import Mathlib

/-!
# Garbled-circuit PIR: a shallow embedding of `garbled_circuit_pir.cpp`

The definitions below transcribe the functions of `src/garbled_circuit_pir.cpp`.

Modelling conventions

* a byte (`unsigned char`) is a `Nat`; the only byte operations of the program are
  XOR and OR, which never leave the byte range, so no reduction modulo 256 is needed;
* `unsigned char data[LABEL_SIZE]` is a function `Fin 16 → Nat`, so a label always
  has exactly 16 data bytes;
* `vector<unsigned char>` is a `List Nat`;
* the OpenSSL EVP interface is a parameter (`Evp`): every call the program makes and
  tests for failure is a field that may fail;
* the random generator is a parameter: the bytes `RAND_bytes` writes and the number
  `rand()` returns are arguments of `generateRandomLabel`;
* a local that the program reads without having initialised it (the label `plaintext`
  of `decrypt`) is an explicit argument holding its indeterminate initial contents;
* a read past the end of a vector is undefined in C++; the model reads `0` there.
-/

namespace GarbledPIR

/-! ## Constants and data model -/

/-- The constant `const size_t KEY_SIZE = 16;` -/
abbrev KEY_SIZE : Nat := 16

/-- The constant `const size_t LABEL_SIZE = KEY_SIZE;` -/
abbrev LABEL_SIZE : Nat := KEY_SIZE

/-- Sixteen bytes: the type of `unsigned char data[LABEL_SIZE]`. -/
abbrev Block : Type := Fin 16 → Nat

/-- The `struct WireLabel`: 16 data bytes and the permute bit. Structural equality is
`operator==` (all 16 bytes by `memcmp`, and the permute bit). -/
structure WireLabel where
  data : Block
  permute_bit : Bool
deriving DecidableEq

/-- The `struct GarbledGate`: the encrypted truth table, a byte vector. -/
structure GarbledGate where
  table : List Nat
deriving DecidableEq

/-- The part of the OpenSSL EVP interface the program calls, as used with
`EVP_aes_128_ecb()` and padding disabled. Each field is one library call whose
result the program tests; a `false` or `none` is the failure of that call.
`encryptUpdate key input` is the bytes `EVP_EncryptUpdate` writes (their number is
the reported `len`); `encryptFinal key input` the bytes `EVP_EncryptFinal_ex`
appends; likewise for decryption. -/
structure Evp where
  ctxNew : Bool
  encryptInit : Block → Bool
  encryptUpdate : Block → List Nat → Option (List Nat)
  encryptFinal : Block → List Nat → Option (List Nat)
  decryptInit : Block → Bool
  decryptUpdate : Block → List Nat → Option (List Nat)
  decryptFinal : Block → List Nat → Option (List Nat)

/-- The cipher calls succeed and single-block decryption under a key inverts
encryption under the same key: encrypting a 16-byte block writes 16 bytes in the
update step and none in the final step, and decrypting those 16 bytes under the
same key writes the original block. -/
structure Evp.Sound (c : Evp) : Prop where
  ctx : c.ctxNew = true
  encInit : ∀ k, c.encryptInit k = true
  decInit : ∀ k, c.decryptInit k = true
  encFinal : ∀ k x, c.encryptFinal k x = some []
  decFinal : ∀ k x, c.decryptFinal k x = some []
  inverts : ∀ (k x : Block), ∃ y : Block,
    c.encryptUpdate k (List.ofFn x) = some (List.ofFn y) ∧
    c.decryptUpdate k (List.ofFn y) = some (List.ofFn x)

/-! ## Label generation -/

/-- Function `generateRandomLabel`: `bytes` is what `RAND_bytes` writes into `label.data`,
`r` is the value of `rand()`. -/
def generateRandomLabel (bytes : Block) (r : Nat) : WireLabel :=
  { data := bytes, permute_bit := r % 2 == 1 }

/-- Function `initializeFreeXOR`: the new value of the global `global_delta`; `bytes` is what
`RAND_bytes` writes. -/
def initializeFreeXOR (bytes : Block) : WireLabel :=
  { data := fun i => if i = 0 then bytes i ||| 1 else bytes i, permute_bit := true }

/-- Function `generateLabelPair`, reading the global `global_delta`; `bytes` and `r` are the
random draw of `generateRandomLabel`. -/
def generateLabelPair (global_delta : WireLabel) (bytes : Block) (r : Nat) :
    WireLabel × WireLabel :=
  let label0 := generateRandomLabel bytes r
  let label1 : WireLabel :=
    { data := fun i => label0.data i ^^^ global_delta.data i
      permute_bit := !label0.permute_bit }
  (label0, label1)

/-! ## The cipher wrappers -/

/-- Function `encrypt(key, plaintext)`: every failure branch returns
`vector<unsigned char>(LABEL_SIZE, 0)`; on success the buffer is resized to the
number of bytes the update and final steps wrote. Only `plaintext.data` is
passed to the cipher. -/
def encrypt (c : Evp) (key plaintext : WireLabel) : List Nat :=
  if c.ctxNew = false then List.replicate LABEL_SIZE 0
  else if c.encryptInit key.data = false then List.replicate LABEL_SIZE 0
  else
    match c.encryptUpdate key.data (List.ofFn plaintext.data) with
    | none => List.replicate LABEL_SIZE 0
    | some written =>
      match c.encryptFinal key.data (List.ofFn plaintext.data) with
      | none => List.replicate LABEL_SIZE 0
      | some tail => written ++ tail

/-- Function `decrypt(key, ciphertext)`. `plaintext0` is the indeterminate initial
value of the local `WireLabel plaintext;`. A failure of the context creation, of the
initialisation or of the update step returns `plaintext` with its initial contents;
the update step writes its output into `plaintext.data` from offset 0, so a failure
of the final step returns `plaintext` with these bytes; on success the bytes of the
final step follow them. `plaintext.permute_bit` is never assigned ("permute_bit is
not set here"). -/
def decrypt (c : Evp) (plaintext0 : WireLabel) (key : WireLabel) (ciphertext : List Nat) :
    WireLabel :=
  if c.ctxNew = false then plaintext0
  else if c.decryptInit key.data = false then plaintext0
  else
    match c.decryptUpdate key.data ciphertext with
    | none => plaintext0
    | some written =>
      match c.decryptFinal key.data ciphertext with
      | none =>
        { data := fun i => written.getD i.val (plaintext0.data i)
          permute_bit := plaintext0.permute_bit }
      | some tail =>
        { data := fun i => (written ++ tail).getD i.val (plaintext0.data i)
          permute_bit := plaintext0.permute_bit }

/-! ## The garbled AND gate -/

/-- The call `memcpy(dst.data() + off, src.data(), n)` on byte vectors: positions
`off .. off+n-1` of `dst` receive the first `n` bytes of `src`. -/
def memcpyAt (dst : List Nat) (off : Nat) (src : List Nat) (n : Nat) : List Nat :=
  (List.range dst.length).map fun p =>
    if off ≤ p ∧ p < off + n then src.getD (p - off) 0 else dst.getD p 0

/-- The row index `(p0 ? 1 : 0) << 1 | (p1 ? 1 : 0)`. -/
def rowIndex (p0 p1 : Bool) : Nat :=
  ((if p0 then 1 else 0) <<< 1) ||| (if p1 then 1 else 0)

/-- Function `createGarbledANDGate`: the table is resized to `4 * LABEL_SIZE` zero bytes and
the four rows are written in the order 00, 01, 10, 11. -/
def createGarbledANDGate (c : Evp) (input0_false input0_true input1_false input1_true
    output_false output_true : WireLabel) : GarbledGate :=
  let table0 := List.replicate (4 * LABEL_SIZE) 0
  let idx00 := rowIndex input0_false.permute_bit input1_false.permute_bit
  let idx01 := rowIndex input0_false.permute_bit input1_true.permute_bit
  let idx10 := rowIndex input0_true.permute_bit input1_false.permute_bit
  let idx11 := rowIndex input0_true.permute_bit input1_true.permute_bit
  -- Case 00 -> 0
  let table1 := memcpyAt table0 (idx00 * LABEL_SIZE) (encrypt c input0_false output_false) LABEL_SIZE
  -- Case 01 -> 0
  let table2 := memcpyAt table1 (idx01 * LABEL_SIZE) (encrypt c input1_true output_false) LABEL_SIZE
  -- Case 10 -> 0
  let table3 := memcpyAt table2 (idx10 * LABEL_SIZE) (encrypt c input0_true output_false) LABEL_SIZE
  -- Case 11 -> 1
  let table4 := memcpyAt table3 (idx11 * LABEL_SIZE) (encrypt c input1_true output_true) LABEL_SIZE
  { table := table4 }

/-- Function `evaluateGarbledANDGate`; `plaintext0` is the indeterminate initial value of the
local of the `decrypt` call it makes. -/
def evaluateGarbledANDGate (c : Evp) (plaintext0 : WireLabel) (gate : GarbledGate)
    (input0 input1 : WireLabel) : WireLabel :=
  let index := rowIndex input0.permute_bit input1.permute_bit
  let ciphertext :=
    memcpyAt (List.replicate LABEL_SIZE 0) 0 (gate.table.drop (index * LABEL_SIZE)) LABEL_SIZE
  if index == 0 || index == 2 then decrypt c plaintext0 input0 ciphertext
  else decrypt c plaintext0 input1 ciphertext

/-! ## Oblivious transfer stand-in -/

/-- Function `obliviousTransfer`: `return choice ? label1 : label0;` -/
def obliviousTransfer (label0 label1 : WireLabel) (choice : Bool) : WireLabel :=
  if choice then label1 else label0

/-- The loop of `getClientInputLabels` from index `i` on, `result` being the vector
built so far; `none` when `wire_labels[i]` is read out of range. -/
def getClientInputLabelsFrom (wire_labels : List (WireLabel × WireLabel)) :
    Nat → List Bool → List WireLabel → Option (List WireLabel)
  | _, [], result => some result
  | i, bit :: rest, result =>
    match wire_labels[i]? with
    | none => none
    | some wl =>
      getClientInputLabelsFrom wire_labels (i + 1) rest
        (result ++ [obliviousTransfer wl.1 wl.2 bit])

/-- Function `getClientInputLabels(wire_labels, input_bits)`. -/
def getClientInputLabels (wire_labels : List (WireLabel × WireLabel))
    (input_bits : List Bool) : Option (List WireLabel) :=
  getClientInputLabelsFrom wire_labels 0 input_bits []

/-! ## Parameter validation and label comparison -/

/-- Function `validateParameters(m, n, client_id, record_idx)`; the messages written to
`cerr` are left out. It calls no cipher and touches no label. -/
def validateParameters (m n client_id record_idx : Nat) : Bool :=
  if client_id ≥ m then false
  else if record_idx ≥ n then false
  else true

/-- The comparison `memcmp(xs, ys, LABEL_SIZE)`: zero when all 16 bytes agree, else the
difference of the first pair of bytes that differ. -/
def memcmp (xs ys : Block) : Int :=
  match (List.finRange 16).find? (fun i => xs i != ys i) with
  | none => 0
  | some i => (xs i : Int) - (ys i : Int)

/-- The comparison `WireLabel::operator==`. -/
def operatorEq (a b : WireLabel) : Bool :=
  memcmp a.data b.data == 0 && a.permute_bit == b.permute_bit

/-- The loop of `constantTimeEquals`: the first component is the accumulator `result`
after the loop, the second the list of the byte indices the loop has read, in order. -/
def constantTimeEqualsLoop (a b : WireLabel) : Nat × List Nat :=
  (List.finRange 16).foldl
    (fun st i => (st.1 ||| (a.data i ^^^ b.data i), st.2 ++ [i.val])) (0, [])

/-- Function `constantTimeEquals(a, b)`. -/
def constantTimeEquals (a b : WireLabel) : Bool :=
  (constantTimeEqualsLoop a b).1 == 0 && a.permute_bit == b.permute_bit

/-- The global `WireLabel global_delta;` before any call of `initializeFreeXOR`: an
object of static storage duration is zero-initialised. -/
def global_delta_initial : WireLabel :=
  { data := fun _ => 0, permute_bit := false }

/-! ## The PIR circuit placeholder -/

/-- Function `createPIRCircuit(m, n, value_bits, gates, client_id_labels, record_idx_labels,
output_labels)`: the body only prints a message; `gates` is passed by reference and
is never written, so the value returned here, the gate vector after the call, is
the one passed in. -/
def createPIRCircuit (_m _n _value_bits : Nat) (gates : List GarbledGate)
    (_client_id_labels _record_idx_labels _output_labels : List (WireLabel × WireLabel)) :
    List GarbledGate :=
  gates

/-! ## The demonstration run of `main` -/

/-- The conversion `bool bit = (x >> i) & 1;` -/
def bitAt (x i : Nat) : Bool :=
  ((x >>> i) &&& 1) != 0

/-- The locals of `main` that the properties below speak about. -/
structure MainResult where
  client_id_labels : List (WireLabel × WireLabel)
  record_idx_labels : List (WireLabel × WireLabel)
  output_labels : List (WireLabel × WireLabel)
  gates : List GarbledGate
  client_input_labels : List WireLabel
  record_input_labels : List WireLabel
  expected_value : Nat
  result_labels : List WireLabel
  result_verified : Bool

/-- The body of the loop "for each bit of the output" of `main` for output wire `i`:
the twelve (for `main`) gates `bit_gates` are created, the first one is evaluated on
`client_input_labels[0]` and `record_input_labels[0]`, and the permute bit of the
result is overwritten with the expected bit. `plaintext0` is the unset local of the
`decrypt` call of this iteration; `none` stands for an out-of-range read. -/
def mainOutputBit (c : Evp) (plaintext0 : WireLabel)
    (client_id_labels record_idx_labels : List (WireLabel × WireLabel))
    (client_input_labels record_input_labels : List WireLabel)
    (output : WireLabel × WireLabel) (expected_value i : Nat) : Option WireLabel := do
  let expected_bit := bitAt expected_value i
  let bit_gates := (client_id_labels.map fun cj =>
    record_idx_labels.map fun rk =>
      createGarbledANDGate c cj.1 cj.2 rk.1 rk.2 output.1 output.2).flatten
  let gate0 ← bit_gates[0]?
  let input0 ← client_input_labels[0]?
  let input1 ← record_input_labels[0]?
  let result := evaluateGarbledANDGate c plaintext0 gate0 input0 input1
  pure { result with permute_bit := expected_bit }

/-- The label returned by the `k`-th call of `generateRandomLabel`, `rnd k` being the
random draw (bytes of `RAND_bytes`, value of `rand()`) of that call. -/
def nthLabel (rnd : Nat → Block × Nat) (k : Nat) : WireLabel :=
  generateRandomLabel (rnd k).1 (rnd k).2

/-- The body of `main` from the label generation on, with the constants `m`, `n`,
`value_range`, `client_id` and `record_idx` as arguments. `rnd k` is the random draw
(bytes of `RAND_bytes`, value of `rand()`) of the `k`-th call of
`generateRandomLabel`, `junk i` the unset local of the `decrypt` call of output wire
`i`, `database` the table filled at the start of `main`. The vector sizes
`log2(x) + 1`, converted to `size_t`, are `Nat.log2 x + 1`. `none` stands for an
out-of-range read. -/
def pirMain (c : Evp) (rnd : Nat → Block × Nat) (junk : Nat → WireLabel)
    (database : List (List Nat)) (m n value_range client_id record_idx : Nat) :
    Option MainResult := do
  let label := nthLabel rnd
  let nc := Nat.log2 m + 1
  let nr := Nat.log2 n + 1
  let no := Nat.log2 value_range + 1
  let client_id_labels := (List.range nc).map fun i => (label (2 * i), label (2 * i + 1))
  let record_idx_labels := (List.range nr).map fun i =>
    (label (2 * nc + 2 * i), label (2 * nc + 2 * i + 1))
  let output_labels := (List.range no).map fun i =>
    (label (2 * nc + 2 * nr + 2 * i), label (2 * nc + 2 * nr + 2 * i + 1))
  let gates := createPIRCircuit m n (Nat.log2 value_range) [] client_id_labels
    record_idx_labels output_labels
  let client_input_labels := client_id_labels.enum.map fun iw =>
    if bitAt client_id iw.1 then iw.2.2 else iw.2.1
  let record_input_labels := record_idx_labels.enum.map fun iw =>
    if bitAt record_idx iw.1 then iw.2.2 else iw.2.1
  let c0 ← client_id_labels[0]?
  let r0 ← record_idx_labels[0]?
  let o0 ← output_labels[0]?
  let _example_gate := createGarbledANDGate c c0.1 c0.2 r0.1 r0.2 o0.1 o0.2
  let row ← database[client_id]?
  let expected_value ← row[record_idx]?
  let result_labels ← (List.range output_labels.length).mapM fun i => do
    let output ← output_labels[i]?
    mainOutputBit c (junk i) client_id_labels record_idx_labels client_input_labels
      record_input_labels output expected_value i
  let result_verified := (List.range output_labels.length).foldl (fun verified i =>
    match result_labels[i]? with
    | some l => if l.permute_bit == bitAt expected_value i then verified else false
    | none => false) true
  pure
    { client_id_labels := client_id_labels
      record_idx_labels := record_idx_labels
      output_labels := output_labels
      gates := gates
      client_input_labels := client_input_labels
      record_input_labels := record_input_labels
      expected_value := expected_value
      result_labels := result_labels
      result_verified := result_verified }

/-- The run of `main`: `m = 10`, `n = 5`, `value_range = 16`, `client_id = 3`, `record_idx = 2`. -/
def main (c : Evp) (rnd : Nat → Block × Nat) (junk : Nat → WireLabel)
    (database : List (List Nat)) : Option MainResult :=
  pirMain c rnd junk database 10 5 16 3 2

/-! ## Auxiliary definitions used to state the properties -/

/-- The 16 bytes of `table` from offset `index * 16` on: the row an evaluator copies. -/
def rowOf (table : List Nat) (index : Nat) : List Nat :=
  (List.range 16).map fun i => table.getD (index * 16 + i) 0

/-- The label passed as `key` to `encrypt` by `createGarbledANDGate` in the case
for cleartext combination `(a, b)`: `input0_false` (case 00), `input1_true`
(case 01), `input0_true` (case 10), `input1_true` (case 11). -/
def garblerKey (input0_false input0_true _input1_false input1_true : WireLabel) :
    Bool → Bool → WireLabel
  | false, false => input0_false
  | false, true => input1_true
  | true, false => input0_true
  | true, true => input1_true

/-- The label passed as `plaintext` to `encrypt` by `createGarbledANDGate` in the
case for cleartext combination `(a, b)`. -/
def garblerPayload (output_false output_true : WireLabel) : Bool → Bool → WireLabel
  | true, true => output_true
  | _, _ => output_false

/-- A database of `m` rows of `n` values below `value_range`. -/
def IsDatabase (m n value_range : Nat) (database : List (List Nat)) : Prop :=
  database.length = m ∧ ∀ row ∈ database, row.length = n ∧ ∀ v ∈ row, v < value_range

instance (m n value_range : Nat) (database : List (List Nat)) :
    Decidable (IsDatabase m n value_range database) := by
  unfold IsDatabase
  infer_instance

/-- The cell `database[i][j]`. -/
def cell (database : List (List Nat)) (i j : Nat) : Nat :=
  (database.getD i []).getD j 0

/-- The number whose binary digits, least significant first, are `bits`. -/
def bitsToNat : List Bool → Nat
  | [] => 0
  | b :: bs => (if b then 1 else 0) + 2 * bitsToNat bs

/-- The WirePair invariant of the specification for the pair `(first, second)` under
the delta `delta`: `second = first XOR delta` bytewise, permute bits complementary. -/
def WirePairInvariant (delta : WireLabel) (pair : WireLabel × WireLabel) : Prop :=
  (∀ i, pair.2.data i = pair.1.data i ^^^ delta.data i) ∧
    pair.2.permute_bit = !pair.1.permute_bit

/-- The label of the pair `pair` held for the cleartext bit `x`. -/
def heldLabel (pair : WireLabel × WireLabel) (x : Bool) : WireLabel :=
  if x then pair.2 else pair.1

/-- The four row indices `idx00`, `idx01`, `idx10`, `idx11` computed by
`createGarbledANDGate`, in the order in which the rows are written. -/
def rowIndices (input0_false input0_true input1_false input1_true : WireLabel) : List Nat :=
  [rowIndex input0_false.permute_bit input1_false.permute_bit,
    rowIndex input0_false.permute_bit input1_true.permute_bit,
    rowIndex input0_true.permute_bit input1_false.permute_bit,
    rowIndex input0_true.permute_bit input1_true.permute_bit]

/-- Some cipher call of `encrypt(key, plaintext)` fails. -/
def encryptFails (c : Evp) (key plaintext : WireLabel) : Bool :=
  !c.ctxNew || !c.encryptInit key.data ||
    (c.encryptUpdate key.data (List.ofFn plaintext.data)).isNone ||
    (c.encryptFinal key.data (List.ofFn plaintext.data)).isNone

/-- The context creation, the initialisation or the update step of
`decrypt(key, ciphertext)` fails. -/
def decryptFailsEarly (c : Evp) (key : WireLabel) (ciphertext : List Nat) : Bool :=
  !c.ctxNew || !c.decryptInit key.data || (c.decryptUpdate key.data ciphertext).isNone

/-- The final step of `decrypt(key, ciphertext)` fails, the earlier ones having
succeeded. -/
def decryptFailsFinal (c : Evp) (key : WireLabel) (ciphertext : List Nat) : Bool :=
  c.ctxNew && c.decryptInit key.data && (c.decryptUpdate key.data ciphertext).isSome &&
    (c.decryptFinal key.data ciphertext).isNone

/-- The label `evaluateGarbledANDGate` passes as `key` to `decrypt`: `input0` when the
row index is 0 or 2, `input1` when it is 1 or 3. -/
def evaluatorKey (input0 input1 : WireLabel) : WireLabel :=
  let index := rowIndex input0.permute_bit input1.permute_bit
  if index == 0 || index == 2 then input0 else input1

/-- The cipher as configured by the program (AES-128-ECB, padding disabled) writes one
block for one block: when the update and the final step of the encryption of a
16-byte input succeed, they write 16 bytes in all. -/
def Evp.WritesOneBlock (c : Evp) : Prop :=
  ∀ (k x : Block) (written tail : List Nat),
    c.encryptUpdate k (List.ofFn x) = some written →
    c.encryptFinal k (List.ofFn x) = some tail → written.length + tail.length = 16

/-! ## The global state -/

/-- The global state of `garbled_circuit_pir.cpp`: the variable `global_delta`. -/
structure Globals where
  global_delta : WireLabel

/-- One call of a function of the program, with its arguments and the random draw or
unset local it consumes. -/
inductive Call where
  | init (bytes : Block)
  | genPair (bytes : Block) (r : Nat)
  | garble (c : Evp) (in0f in0t in1f in1t outF outT : WireLabel)
  | evaluate (c : Evp) (plaintext0 : WireLabel) (gate : GarbledGate)
      (input0 input1 : WireLabel)
  | transfer (label0 label1 : WireLabel) (choice : Bool)
  | clientLabels (wire_labels : List (WireLabel × WireLabel)) (input_bits : List Bool)

/-- The value a call returns. -/
inductive Returned where
  | unit
  | pair (p : WireLabel × WireLabel)
  | gate (g : GarbledGate)
  | label (l : WireLabel)
  | labels (ls : Option (List WireLabel))

/-- Whether the call is a call of `initializeFreeXOR`. -/
def Call.isInit : Call → Bool
  | .init _ => true
  | _ => false

/-- The value a call returns and the global state after it. `initializeFreeXOR` is the
one function with an assignment to `global_delta`; `generateLabelPair` reads it; the
other functions do not mention it. -/
def Call.exec (g : Globals) : Call → Returned × Globals
  | .init bytes => (.unit, { global_delta := initializeFreeXOR bytes })
  | .genPair bytes r => (.pair (generateLabelPair g.global_delta bytes r), g)
  | .garble c in0f in0t in1f in1t outF outT =>
    (.gate (createGarbledANDGate c in0f in0t in1f in1t outF outT), g)
  | .evaluate c plaintext0 gate input0 input1 =>
    (.label (evaluateGarbledANDGate c plaintext0 gate input0 input1), g)
  | .transfer label0 label1 choice => (.label (obliviousTransfer label0 label1 choice), g)
  | .clientLabels wire_labels input_bits =>
    (.labels (getClientInputLabels wire_labels input_bits), g)

/-- A sequence of calls run from the state `g`: the values returned, in order, and the
final state. -/
def runCalls (g : Globals) : List Call → List Returned × Globals
  | [] => ([], g)
  | call :: rest =>
    let step := call.exec g
    let tail := runCalls step.2 rest
    (step.1 :: tail.1, tail.2)

/-! ## Concrete instances used to exercise the definitions -/

/-- A toy cipher that always succeeds: byte `i` of the input is XORed with key byte
`i mod 16`, all output is written by the update step. It is its own inverse. -/
def xorEvp : Evp where
  ctxNew := true
  encryptInit := fun _ => true
  encryptUpdate := fun k xs =>
    some ((List.range xs.length).map fun i => xs.getD i 0 ^^^ k (Fin.ofNat i))
  encryptFinal := fun _ _ => some []
  decryptInit := fun _ => true
  decryptUpdate := fun k xs =>
    some ((List.range xs.length).map fun i => xs.getD i 0 ^^^ k (Fin.ofNat i))
  decryptFinal := fun _ _ => some []

/-- A cipher whose context creation fails (`EVP_CIPHER_CTX_new` returns null). -/
def failEvp : Evp where
  ctxNew := false
  encryptInit := fun _ => true
  encryptUpdate := fun _ xs => some xs
  encryptFinal := fun _ _ => some []
  decryptInit := fun _ => true
  decryptUpdate := fun _ xs => some xs
  decryptFinal := fun _ _ => some []

/-- The toy cipher with a failing final step (`EVP_EncryptFinal_ex` and
`EVP_DecryptFinal_ex` do not return 1). -/
def finalFailEvp : Evp :=
  { xorEvp with encryptFinal := fun _ _ => none, decryptFinal := fun _ _ => none }

/-- The label whose 16 data bytes all equal `b`. -/
def constLabel (b : Nat) (p : Bool) : WireLabel :=
  { data := fun _ => b, permute_bit := p }

/-- A random draw: call `k` yields sixteen bytes `k + 1` and `rand() = k`, so the
first label of each pair has permute bit `false` and the second `true`. -/
def rnd0 : Nat → Block × Nat :=
  fun k => (fun _ => k + 1, k)

/-- A random draw in which `rand()` returns the even number `2 k + 4` at call `k`:
call `k` yields sixteen bytes `k + 1` and every permute bit is `false`. -/
def rnd1 : Nat → Block × Nat :=
  fun k => (fun _ => k + 1, 2 * k + 4)

/-- Unset locals of the `decrypt` calls: all bytes zero, permute bit `false`. -/
def junk0 : Nat → WireLabel :=
  fun _ => constLabel 0 false

/-- The 10 x 5 database all of whose cells hold `v`. -/
def constDb (v : Nat) : List (List Nat) :=
  List.replicate 10 (List.replicate 5 v)

end GarbledPIR

/-!
# The homomorphic-encryption programs

`homomorphic_pir.cpp` and `matrix_element_extraction.cpp` compute on SEAL
ciphertexts built by the batch encoder. SEAL is taken to be correct: a
ciphertext stands for the plaintext values it encrypts, `multiply` and
`multiply_plain` multiply them and `add_inplace` adds them, modulo the plain modulus
(slot by slot for batched plaintexts), and decryption returns these values. A vector
is a `List Nat`; a write past its end is `none`. The matrices the programs fill
themselves with random values are functions from the two indices to the value drawn.
-/

namespace Vec

/-- The assignment `xs[i] = v` on a vector; `none` when `i` is out of range. -/
def setAt (xs : List Nat) (i v : Nat) : Option (List Nat) :=
  if i < xs.length then some (xs.set i v) else none

/-- The read `matrix[i][j]` of a matrix of `m` rows of `n` values; `none` when an
index is out of range. -/
def readCell (matrix : Nat → Nat → Nat) (m n i j : Nat) : Option Nat :=
  if i < m ∧ j < n then some (matrix i j) else none

end Vec

namespace HomomorphicPIR

/-- The decoded result of `evaluator.multiply_plain(selection_encrypted,
database_plain, result)`: slot `k` holds the product of the slots `k` of the two
encoded vectors modulo the plain modulus. -/
def multiplyPlain (plain_modulus : Nat) (selection database : List Nat) : List Nat :=
  List.zipWith (fun s d => (s * d) % plain_modulus) selection database

/-- The loops "flatten the database": `flat_database[i * n + j] = database[i][j]`
for `i < m`, `j < n`. -/
def flattenDatabase (database : Nat → Nat → Nat) (m n : Nat) (flat_database : List Nat) :
    Option (List Nat) :=
  (List.range m).foldlM (fun flat i =>
    (List.range n).foldlM (fun flat j => do
      let value ← Vec.readCell database m n i j
      Vec.setAt flat (i * n + j) value) flat) flat_database

/-- The body of `main` of `homomorphic_pir.cpp` with the constants `m`, `n`,
`client_id`, `record_idx` and the SEAL parameters `plain_modulus` and `slot_count` as
arguments; `database i j` is the random value drawn for the cell. The result is the
pair `(retrieved_value, expected value)` the program prints; `retrieved_value` is a
`uint64_t` accumulator. Index arithmetic is taken without wrap-around. -/
def main (plain_modulus slot_count : Nat) (database : Nat → Nat → Nat)
    (m n client_id record_idx : Nat) : Option (Nat × Nat) := do
  let expected ← Vec.readCell database m n client_id record_idx
  let flat_index := client_id * n + record_idx
  let selection_vector ← Vec.setAt (List.replicate slot_count 0) flat_index 1
  let flat_database ← flattenDatabase database m n (List.replicate slot_count 0)
  let result_vec := multiplyPlain plain_modulus selection_vector flat_database
  let retrieved_value := (List.range slot_count).foldl
    (fun acc i => (acc + result_vec.getD i 0) % 2 ^ 64) 0
  pure (retrieved_value, expected)

end HomomorphicPIR

namespace MatrixElementExtraction

/-- The body of `main` of `matrix_element_extraction.cpp` with `m`, `n` and the SEAL
plain modulus as arguments: `plain_matrix i j` is the random byte drawn for the cell,
`col_idx` and `row_idx` the two random positions. The result is
`(decrypted_result, expected_result)` and whether the program prints "Test passed!";
`decrypted_result` is the cast of slot 0 to `uint8_t`. -/
def main (plain_modulus : Nat) (plain_matrix : Nat → Nat → Nat) (m n col_idx row_idx : Nat) :
    Option (Nat × Nat × Bool) := do
  let plain_col_vec ← Vec.setAt (List.replicate n 0) col_idx 1
  let plain_row_vec ← Vec.setAt (List.replicate m 0) row_idx 1
  let enc_sum_vec := (List.range m).map fun i =>
    (List.range n).foldl
      (fun acc j => (acc + (plain_matrix i j * plain_col_vec.getD j 0) % plain_modulus)
        % plain_modulus) 0
  let final_result := (List.range m).foldl
    (fun acc i => (acc + (plain_row_vec.getD i 0 * enc_sum_vec.getD i 0) % plain_modulus)
      % plain_modulus) 0
  let decrypted_result := final_result % 256
  let expected_result ← Vec.readCell plain_matrix m n row_idx col_idx
  pure (decrypted_result, expected_result, decrypted_result == expected_result)

end MatrixElementExtraction

namespace GarbledPIR

/-! ## General lemmas -/

theorem getD_ofFn (x : Block) (n : Nat) (hn : n < 16) (d : Nat) :
    (List.ofFn x).getD n d = x ⟨n, hn⟩ := by
  rw [List.getD_eq_getElem?_getD, List.getElem?_eq_getElem (by simpa using hn),
    List.getElem_ofFn]
  rfl

theorem xorEvp_update_ofFn (k x : Block) :
    (List.range (List.ofFn x).length).map
        (fun i => (List.ofFn x).getD i 0 ^^^ k (Fin.ofNat i))
      = List.ofFn (fun i => x i ^^^ k i) := by
  apply List.ext_getElem
  · simp
  · intro n h1 h2
    have hn : n < 16 := by simpa using h2
    rw [List.getElem_map, List.getElem_range, List.getElem_ofFn, getD_ofFn x n hn]
    have hk : (Fin.ofNat n : Fin 16) = ⟨n, hn⟩ := by
      apply Fin.ext
      show n % 16 = n
      exact Nat.mod_eq_of_lt hn
    rw [hk]

theorem xorEvp_sound : xorEvp.Sound where
  ctx := rfl
  encInit := fun _ => rfl
  decInit := fun _ => rfl
  encFinal := fun _ _ => rfl
  decFinal := fun _ _ => rfl
  inverts := by
    intro k x
    refine ⟨fun i => x i ^^^ k i, ?_, ?_⟩
    · simp only [xorEvp, xorEvp_update_ofFn]
    · simp only [xorEvp, xorEvp_update_ofFn]
      congr 2
      funext i
      rw [Nat.xor_assoc, Nat.xor_self, Nat.xor_zero]

/-! ## Lemmas on the table rows -/

theorem rowIndex_ff : rowIndex false false = 0 := rfl
theorem rowIndex_ft : rowIndex false true = 1 := rfl
theorem rowIndex_tf : rowIndex true false = 2 := rfl
theorem rowIndex_tt : rowIndex true true = 3 := rfl

theorem rowIndex_lt (p q : Bool) : rowIndex p q < 4 := by
  cases p <;> cases q <;> decide

theorem memcpyAt_length (dst : List Nat) (off : Nat) (src : List Nat) (n : Nat) :
    (memcpyAt dst off src n).length = dst.length := by
  simp [memcpyAt]

theorem memcpyAt_getD (dst : List Nat) (off : Nat) (src : List Nat) (n p : Nat)
    (hp : p < dst.length) :
    (memcpyAt dst off src n).getD p 0 =
      if off ≤ p ∧ p < off + n then src.getD (p - off) 0 else dst.getD p 0 := by
  unfold memcpyAt
  rw [List.getD_eq_getElem?_getD, List.getElem?_map, List.getElem?_range hp]
  rfl

theorem memcpyAt_row (table : List Nat) (index : Nat) :
    memcpyAt (List.replicate LABEL_SIZE 0) 0 (table.drop (index * LABEL_SIZE)) LABEL_SIZE
      = rowOf table index := by
  unfold memcpyAt rowOf
  rw [List.length_replicate]
  apply List.map_congr_left
  intro i hi
  have h16 : i < 16 := List.mem_range.mp hi
  simp [h16, List.getD_eq_getElem?_getD, List.getElem?_drop]

theorem rowOf_memcpyAt (table : List Nat) (idx idx' : Nat) (src : List Nat)
    (hlen : table.length = 64) (hidx : idx < 4) (hidx' : idx' < 4) :
    rowOf (memcpyAt table (idx * LABEL_SIZE) src LABEL_SIZE) idx' =
      if idx' = idx then (List.range 16).map (fun i => src.getD i 0) else rowOf table idx' := by
  unfold rowOf
  split
  · next h =>
    subst h
    apply List.map_congr_left
    intro i hi
    have h16 : i < 16 := List.mem_range.mp hi
    rw [memcpyAt_getD _ _ _ _ _ (by omega)]
    have hc : idx' * LABEL_SIZE ≤ idx' * 16 + i ∧ idx' * 16 + i < idx' * LABEL_SIZE + LABEL_SIZE := by
      constructor <;> simp only [LABEL_SIZE, KEY_SIZE] <;> omega
    rw [if_pos hc]
    congr 1
    simp only [LABEL_SIZE, KEY_SIZE]
    omega
  · next h =>
    apply List.map_congr_left
    intro i hi
    have h16 : i < 16 := List.mem_range.mp hi
    rw [memcpyAt_getD _ _ _ _ _ (by omega)]
    have hc : ¬ (idx * LABEL_SIZE ≤ idx' * 16 + i ∧ idx' * 16 + i < idx * LABEL_SIZE + LABEL_SIZE) := by
      simp only [LABEL_SIZE, KEY_SIZE]
      omega
    rw [if_neg hc]

theorem rowOf_four_writes (table : List Nat) (i0 i1 i2 i3 j : Nat) (c0 c1 c2 c3 : List Nat)
    (hlen : table.length = 64) (h0 : i0 < 4) (h1 : i1 < 4) (h2 : i2 < 4) (h3 : i3 < 4)
    (hj : j < 4) :
    rowOf (memcpyAt (memcpyAt (memcpyAt (memcpyAt table (i0 * LABEL_SIZE) c0 LABEL_SIZE)
        (i1 * LABEL_SIZE) c1 LABEL_SIZE) (i2 * LABEL_SIZE) c2 LABEL_SIZE)
        (i3 * LABEL_SIZE) c3 LABEL_SIZE) j =
      if j = i3 then (List.range 16).map (fun i => c3.getD i 0)
      else if j = i2 then (List.range 16).map (fun i => c2.getD i 0)
      else if j = i1 then (List.range 16).map (fun i => c1.getD i 0)
      else if j = i0 then (List.range 16).map (fun i => c0.getD i 0)
      else rowOf table j := by
  rw [rowOf_memcpyAt _ _ _ _ (by simp only [memcpyAt_length]; exact hlen) h3 hj,
    rowOf_memcpyAt _ _ _ _ (by simp only [memcpyAt_length]; exact hlen) h2 hj,
    rowOf_memcpyAt _ _ _ _ (by simp only [memcpyAt_length]; exact hlen) h1 hj,
    rowOf_memcpyAt _ _ _ _ hlen h0 hj]

theorem range_getD_ofFn (y : Block) :
    (List.range 16).map (fun i => (List.ofFn y).getD i 0) = List.ofFn y := by
  apply List.ext_getElem
  · simp
  · intro n h1 h2
    have hn : n < 16 := by simpa using h2
    rw [List.getElem_map, List.getElem_range, getD_ofFn y n hn, List.getElem_ofFn]

/-! ## Lemmas on the cipher wrappers -/

theorem encrypt_sound (c : Evp) (hc : c.Sound) (key plaintext : WireLabel) :
    ∃ y : Block, encrypt c key plaintext = List.ofFn y ∧
      c.decryptUpdate key.data (List.ofFn y) = some (List.ofFn plaintext.data) := by
  obtain ⟨y, hy1, hy2⟩ := hc.inverts key.data plaintext.data
  refine ⟨y, ?_, hy2⟩
  simp only [encrypt, hc.ctx, hc.encInit, hy1, hc.encFinal, Bool.true_eq_false, if_false,
    List.append_nil]

theorem decrypt_row_encrypt (c : Evp) (hc : c.Sound) (plaintext0 key plaintext : WireLabel) :
    decrypt c plaintext0 key ((List.range 16).map fun i => (encrypt c key plaintext).getD i 0)
      = { data := plaintext.data, permute_bit := plaintext0.permute_bit } := by
  obtain ⟨y, hy1, hy2⟩ := encrypt_sound c hc key plaintext
  rw [hy1, range_getD_ofFn]
  simp only [decrypt, hc.ctx, hc.decInit, hy2, hc.decFinal, List.append_nil]
  simp only [Bool.true_eq_false, if_false]
  congr 1
  funext i
  exact getD_ofFn plaintext.data i.val i.isLt _

theorem decrypt_permute_bit (c : Evp) (plaintext0 key : WireLabel) (ciphertext : List Nat) :
    (decrypt c plaintext0 key ciphertext).permute_bit = plaintext0.permute_bit := by
  unfold decrypt
  split
  · rfl
  · split
    · rfl
    · split
      · rfl
      · split <;> rfl

theorem evaluate_keeps_unset_bit (c : Evp) (plaintext0 : WireLabel) (gate : GarbledGate)
    (input0 input1 : WireLabel) :
    (evaluateGarbledANDGate c plaintext0 gate input0 input1).permute_bit
      = plaintext0.permute_bit := by
  unfold evaluateGarbledANDGate
  simp only []
  split <;> exact decrypt_permute_bit _ _ _ _

theorem evaluate_eq_decrypt_row (c : Evp) (plaintext0 : WireLabel) (gate : GarbledGate)
    (input0 input1 : WireLabel) :
    evaluateGarbledANDGate c plaintext0 gate input0 input1 =
      decrypt c plaintext0 (if input1.permute_bit then input1 else input0)
        (rowOf gate.table (rowIndex input0.permute_bit input1.permute_bit)) := by
  unfold evaluateGarbledANDGate
  simp only [memcpyAt_row]
  cases input0.permute_bit <;> cases input1.permute_bit <;> rfl

/-- The four rows of a garbled AND gate whose two input pairs have distinct permute
bits within each pair: row `rowIndex p q` holds the ciphertext written for the
combination whose labels carry the permute bits `p` and `q`. -/
theorem create_rowOf (c : Evp) (in0f in0t in1f in1t outF outT : WireLabel)
    (h0 : in0t.permute_bit = !in0f.permute_bit) (h1 : in1t.permute_bit = !in1f.permute_bit) :
    rowOf (createGarbledANDGate c in0f in0t in1f in1t outF outT).table
        (rowIndex in0f.permute_bit in1f.permute_bit)
      = (List.range 16).map (fun i => (encrypt c in0f outF).getD i 0) ∧
    rowOf (createGarbledANDGate c in0f in0t in1f in1t outF outT).table
        (rowIndex in0f.permute_bit in1t.permute_bit)
      = (List.range 16).map (fun i => (encrypt c in1t outF).getD i 0) ∧
    rowOf (createGarbledANDGate c in0f in0t in1f in1t outF outT).table
        (rowIndex in0t.permute_bit in1f.permute_bit)
      = (List.range 16).map (fun i => (encrypt c in0t outF).getD i 0) ∧
    rowOf (createGarbledANDGate c in0f in0t in1f in1t outF outT).table
        (rowIndex in0t.permute_bit in1t.permute_bit)
      = (List.range 16).map (fun i => (encrypt c in1t outT).getD i 0) := by
  simp only [createGarbledANDGate]
  have hlen : (List.replicate (4 * LABEL_SIZE) 0).length = 64 := List.length_replicate _ _
  refine ⟨?_, ?_, ?_, ?_⟩ <;>
    rw [rowOf_four_writes _ _ _ _ _ _ _ _ _ _ hlen (rowIndex_lt _ _) (rowIndex_lt _ _)
      (rowIndex_lt _ _) (rowIndex_lt _ _) (rowIndex_lt _ _)] <;>
    rw [h0, h1] <;>
    cases in0f.permute_bit <;> cases in1f.permute_bit <;>
    simp [rowIndex_ff, rowIndex_ft, rowIndex_tf, rowIndex_tt]

/-! ## AND-gate evaluation (C1) -/

/-- C1 (as amended). For every cipher whose calls succeed and whose single-block
decryption inverts encryption, every input pair 0 with complementary permute bits,
every input pair 1 with `input1_false.permute_bit = false` and
`input1_true.permute_bit = true`, every output pair and all `a`, `b`: evaluating the
garbled AND gate on `in0[a]`, `in1[b]` returns a label whose 16 data bytes are those
of `output_true` when `a = b = 1` and of `output_false` otherwise; its permute bit is
the unset bit of the local of `decrypt`, not the permute bit of the output label. -/
theorem evaluate_create_and_gate (c : Evp) (hc : c.Sound)
    (plaintext0 in0f in0t in1f in1t outF outT : WireLabel)
    (h0 : in0t.permute_bit = !in0f.permute_bit)
    (h1f : in1f.permute_bit = false) (h1t : in1t.permute_bit = true) (a b : Bool) :
    evaluateGarbledANDGate c plaintext0
        (createGarbledANDGate c in0f in0t in1f in1t outF outT)
        (if a then in0t else in0f) (if b then in1t else in1f)
      = { data := (if a && b then outT else outF).data
          permute_bit := plaintext0.permute_bit } := by
  have h1 : in1t.permute_bit = !in1f.permute_bit := by rw [h1f, h1t]; rfl
  obtain ⟨r00, r01, r10, r11⟩ := create_rowOf c in0f in0t in1f in1t outF outT h0 h1
  cases a <;> cases b
  · show evaluateGarbledANDGate c plaintext0 _ in0f in1f = ⟨outF.data, _⟩
    rw [evaluate_eq_decrypt_row, r00, h1f]
    exact decrypt_row_encrypt c hc _ _ _
  · show evaluateGarbledANDGate c plaintext0 _ in0f in1t = ⟨outF.data, _⟩
    rw [evaluate_eq_decrypt_row, r01, h1t]
    exact decrypt_row_encrypt c hc _ _ _
  · show evaluateGarbledANDGate c plaintext0 _ in0t in1f = ⟨outF.data, _⟩
    rw [evaluate_eq_decrypt_row, r10, h1f]
    exact decrypt_row_encrypt c hc _ _ _
  · show evaluateGarbledANDGate c plaintext0 _ in0t in1t = ⟨outT.data, _⟩
    rw [evaluate_eq_decrypt_row, r11, h1t]
    exact decrypt_row_encrypt c hc _ _ _

/-- Witness of C1 (as amended): the toy cipher, input labels with permute bits
`(true, false)` and `(false, true)`, combination `a = b = 1`. -/
theorem evaluate_create_and_gate_witness :
    evaluateGarbledANDGate xorEvp (constLabel 0 false)
        (createGarbledANDGate xorEvp (constLabel 1 true) (constLabel 2 false)
          (constLabel 3 false) (constLabel 4 true) (constLabel 5 false) (constLabel 6 true))
        (if true then constLabel 2 false else constLabel 1 true)
        (if true then constLabel 4 true else constLabel 3 false)
      = { data := (if true && true then constLabel 6 true else constLabel 5 false).data
          permute_bit := (constLabel 0 false).permute_bit } :=
  evaluate_create_and_gate xorEvp xorEvp_sound (constLabel 0 false) (constLabel 1 true)
    (constLabel 2 false) (constLabel 3 false) (constLabel 4 true) (constLabel 5 false)
    (constLabel 6 true) rfl rfl rfl true true

/-- C1 as stated fails. With the toy cipher and the output pair
`(constLabel 5 false, constLabel 6 true)`:
(1) on well-formed input pairs, combination (1,1), the result is not `output_true`
when the unset permute bit of `decrypt` is `false`;
(2) on the same pairs, combination (0,0), the result is not `output_false` when that
bit is `true`;
(3) when `input1_false.permute_bit` is `true`, combination (0,0) returns data bytes
that are not those of `output_false`. -/
theorem evaluate_create_and_gate_counterexample :
    evaluateGarbledANDGate xorEvp (constLabel 0 false)
        (createGarbledANDGate xorEvp (constLabel 1 false) (constLabel 2 true)
          (constLabel 3 false) (constLabel 4 true) (constLabel 5 false) (constLabel 6 true))
        (constLabel 2 true) (constLabel 4 true) ≠ constLabel 6 true ∧
    evaluateGarbledANDGate xorEvp (constLabel 0 true)
        (createGarbledANDGate xorEvp (constLabel 1 false) (constLabel 2 true)
          (constLabel 3 false) (constLabel 4 true) (constLabel 5 false) (constLabel 6 true))
        (constLabel 1 false) (constLabel 3 false) ≠ constLabel 5 false ∧
    (evaluateGarbledANDGate xorEvp (constLabel 0 false)
        (createGarbledANDGate xorEvp (constLabel 1 false) (constLabel 2 true)
          (constLabel 3 true) (constLabel 4 false) (constLabel 5 false) (constLabel 6 true))
        (constLabel 1 false) (constLabel 3 true)).data ≠ (constLabel 5 false).data := by
  refine ⟨?_, ?_, ?_⟩
  · intro h
    have hp := congrArg WireLabel.permute_bit h
    rw [evaluate_keeps_unset_bit] at hp
    exact absurd hp (by decide)
  · intro h
    have hp := congrArg WireLabel.permute_bit h
    rw [evaluate_keeps_unset_bit] at hp
    exact absurd hp (by decide)
  · intro h
    have h0 := congrFun h 0
    revert h0
    decide

/-! ## Key derivation in the garbler (C5) -/

/-- C5 (as amended). In `createGarbledANDGate` the key under which the row for
combination `(a, b)` is encrypted is a single input label: `in0[a]` when `b = 0` and
`input1_true` when `b = 1`. The table is the four row writes under these keys. The
key of a row with `b = 0` is the same whatever the labels of input 1 are, the key of
a row with `b = 1` is the same whatever the labels of input 0 are, and the data bytes
of `input1_false` are never used: replacing them leaves the whole table unchanged. -/
theorem garbler_key_is_one_label (c : Evp) (in0f in0t in1f in1t outF outT : WireLabel)
    (in0f' in0t' in1f' in1t' : WireLabel) (d : Block) :
    (createGarbledANDGate c in0f in0t in1f in1t outF outT).table =
      memcpyAt (memcpyAt (memcpyAt (memcpyAt (List.replicate (4 * LABEL_SIZE) 0)
        (rowIndex in0f.permute_bit in1f.permute_bit * LABEL_SIZE)
          (encrypt c (garblerKey in0f in0t in1f in1t false false)
            (garblerPayload outF outT false false)) LABEL_SIZE)
        (rowIndex in0f.permute_bit in1t.permute_bit * LABEL_SIZE)
          (encrypt c (garblerKey in0f in0t in1f in1t false true)
            (garblerPayload outF outT false true)) LABEL_SIZE)
        (rowIndex in0t.permute_bit in1f.permute_bit * LABEL_SIZE)
          (encrypt c (garblerKey in0f in0t in1f in1t true false)
            (garblerPayload outF outT true false)) LABEL_SIZE)
        (rowIndex in0t.permute_bit in1t.permute_bit * LABEL_SIZE)
          (encrypt c (garblerKey in0f in0t in1f in1t true true)
            (garblerPayload outF outT true true)) LABEL_SIZE ∧
    (∀ a b, garblerKey in0f in0t in1f in1t a b =
      if b then in1t else if a then in0t else in0f) ∧
    (∀ a, garblerKey in0f in0t in1f' in1t' a false = garblerKey in0f in0t in1f in1t a false) ∧
    (∀ a, garblerKey in0f' in0t' in1f in1t a true = garblerKey in0f in0t in1f in1t a true) ∧
    createGarbledANDGate c in0f in0t { in1f with data := d } in1t outF outT
      = createGarbledANDGate c in0f in0t in1f in1t outF outT := by
  refine ⟨rfl, ?_, ?_, ?_, rfl⟩
  · intro a b
    cases a <;> cases b <;> rfl
  · intro a
    cases a <;> rfl
  · intro a
    cases a <;> rfl

/-- C5 as stated fails: two garblings that differ only in the data of `input1_false`
(bytes 3 against bytes 9) use the same key for row (0,0), namely `input0_false`, and
produce the same table. -/
theorem garbler_key_counterexample :
    (constLabel 3 false).data ≠ (constLabel 9 false).data ∧
    garblerKey (constLabel 1 false) (constLabel 2 true) (constLabel 3 false)
        (constLabel 4 true) false false
      = garblerKey (constLabel 1 false) (constLabel 2 true) (constLabel 9 false)
        (constLabel 4 true) false false ∧
    createGarbledANDGate xorEvp (constLabel 1 false) (constLabel 2 true) (constLabel 3 false)
        (constLabel 4 true) (constLabel 5 false) (constLabel 6 true)
      = createGarbledANDGate xorEvp (constLabel 1 false) (constLabel 2 true)
        (constLabel 9 false) (constLabel 4 true) (constLabel 5 false) (constLabel 6 true) := by
  refine ⟨?_, rfl, rfl⟩
  intro h
  have h0 := congrFun h 0
  revert h0
  decide

/-! ## The permute bit of an evaluated label (C6) -/

/-- C6 (as amended). The permute bit of the label returned by
`evaluateGarbledANDGate` is not taken from the decrypted payload: for every cipher,
gate and held labels it is the unset permute bit of the local of `decrypt`; and the
table built by `createGarbledANDGate` does not depend on the permute bits of the two
output labels, only their 16 data bytes are encrypted. -/
theorem evaluate_permute_bit_unset (c : Evp) (plaintext0 : WireLabel) (gate : GarbledGate)
    (input0 input1 in0f in0t in1f in1t outF outT : WireLabel) (p q : Bool) :
    (evaluateGarbledANDGate c plaintext0 gate input0 input1).permute_bit
      = plaintext0.permute_bit ∧
    createGarbledANDGate c in0f in0t in1f in1t
        { outF with permute_bit := p } { outT with permute_bit := q }
      = createGarbledANDGate c in0f in0t in1f in1t outF outT :=
  ⟨evaluate_keeps_unset_bit c plaintext0 gate input0 input1, rfl⟩

/-- C6 as stated fails: with the toy cipher, well-formed input pairs and held labels
for combination (1,1), the gate built for `output_true = constLabel 6 true` and the
gate built for `constLabel 6 false` give the same evaluated label, and its permute
bit is `false`, not the permute bit `true` of the encrypted output label. -/
theorem evaluate_permute_bit_counterexample :
    evaluateGarbledANDGate xorEvp (constLabel 0 false)
        (createGarbledANDGate xorEvp (constLabel 1 false) (constLabel 2 true)
          (constLabel 3 false) (constLabel 4 true) (constLabel 5 false) (constLabel 6 true))
        (constLabel 2 true) (constLabel 4 true)
      = evaluateGarbledANDGate xorEvp (constLabel 0 false)
        (createGarbledANDGate xorEvp (constLabel 1 false) (constLabel 2 true)
          (constLabel 3 false) (constLabel 4 true) (constLabel 5 false) (constLabel 6 false))
        (constLabel 2 true) (constLabel 4 true) ∧
    (evaluateGarbledANDGate xorEvp (constLabel 0 false)
        (createGarbledANDGate xorEvp (constLabel 1 false) (constLabel 2 true)
          (constLabel 3 false) (constLabel 4 true) (constLabel 5 false) (constLabel 6 true))
        (constLabel 2 true) (constLabel 4 true)).permute_bit
      ≠ (constLabel 6 true).permute_bit := by
  refine ⟨rfl, ?_⟩
  rw [evaluate_keeps_unset_bit]
  decide

/-! ## Cipher failures (C7) -/

theorem encrypt_of_fails (c : Evp) (key plaintext : WireLabel)
    (h : encryptFails c key plaintext = true) :
    encrypt c key plaintext = List.replicate LABEL_SIZE 0 := by
  unfold encrypt
  unfold encryptFails at h
  split
  · rfl
  · split
    · rfl
    · split
      · rfl
      · split
        · rfl
        · simp_all

theorem decrypt_of_fails_early (c : Evp) (plaintext0 key : WireLabel) (ciphertext : List Nat)
    (h : decryptFailsEarly c key ciphertext = true) :
    decrypt c plaintext0 key ciphertext = plaintext0 := by
  unfold decrypt
  unfold decryptFailsEarly at h
  split
  · rfl
  · split
    · rfl
    · split
      · rfl
      · simp_all

theorem decrypt_of_fails_final (c : Evp) (plaintext0 key : WireLabel) (ciphertext : List Nat)
    (h : decryptFailsFinal c key ciphertext = true) :
    ∃ written, c.decryptUpdate key.data ciphertext = some written ∧
      decrypt c plaintext0 key ciphertext =
        { data := fun i => written.getD i.val (plaintext0.data i)
          permute_bit := plaintext0.permute_bit } := by
  unfold decryptFailsFinal at h
  simp only [Bool.and_eq_true, Option.isSome_iff_exists, Option.isNone_iff_eq_none] at h
  obtain ⟨⟨⟨hctx, hinit⟩, written, hupd⟩, hfin⟩ := h
  refine ⟨written, hupd, ?_⟩
  simp only [decrypt, hctx, hinit, hupd, hfin, Bool.true_eq_false, if_false]

theorem memcpyAt_zeros (len off n : Nat) :
    memcpyAt (List.replicate len 0) off (List.replicate n 0) n = List.replicate len 0 := by
  apply List.ext_getElem
  · simp [memcpyAt]
  · intro i h1 h2
    simp only [memcpyAt, List.getElem_map, List.getElem_range, List.getElem_replicate,
      List.getD_eq_getElem?_getD, List.getElem?_replicate]
    split <;> split <;> rfl

/-- C7 (as amended). Cipher failures are masked. Whenever a cipher call of `encrypt`
fails, `encrypt` returns the 16-byte all-zero vector. Whenever the context creation,
the initialisation or the update step of `decrypt` fails, `decrypt` returns its local
label as it was, unset; whenever its final step fails, it returns that label with the
bytes of the update step written into the data and the permute bit unset. Neither
return type carries an error. When every encryption fails, `createGarbledANDGate`
returns a table of 64 zero bytes, and when the decryption of the selected row fails
before the final step, `evaluateGarbledANDGate` returns the unset label. -/
theorem cipher_failure_masked (c : Evp) :
    (∀ key plaintext, encryptFails c key plaintext = true →
      encrypt c key plaintext = List.replicate LABEL_SIZE 0) ∧
    (∀ plaintext0 key ciphertext, decryptFailsEarly c key ciphertext = true →
      decrypt c plaintext0 key ciphertext = plaintext0) ∧
    (∀ plaintext0 key ciphertext, decryptFailsFinal c key ciphertext = true →
      ∃ written, c.decryptUpdate key.data ciphertext = some written ∧
        decrypt c plaintext0 key ciphertext =
          { data := fun i => written.getD i.val (plaintext0.data i)
            permute_bit := plaintext0.permute_bit }) ∧
    ((∀ key plaintext, encryptFails c key plaintext = true) →
      ∀ in0f in0t in1f in1t outF outT,
        createGarbledANDGate c in0f in0t in1f in1t outF outT
          = { table := List.replicate (4 * LABEL_SIZE) 0 }) ∧
    (∀ plaintext0 gate input0 input1,
      (∀ key, decryptFailsEarly c key
        (rowOf gate.table (rowIndex input0.permute_bit input1.permute_bit)) = true) →
      evaluateGarbledANDGate c plaintext0 gate input0 input1 = plaintext0) := by
  refine ⟨encrypt_of_fails c, decrypt_of_fails_early c, decrypt_of_fails_final c, ?_, ?_⟩
  · intro h in0f in0t in1f in1t outF outT
    simp only [createGarbledANDGate, encrypt_of_fails c _ _ (h _ _), memcpyAt_zeros]
  · intro plaintext0 gate input0 input1 h
    rw [evaluate_eq_decrypt_row]
    exact decrypt_of_fails_early c _ _ _ (h _)

/-- Witness of C7 (as amended): the cipher whose context creation fails, and for the
final step the toy cipher whose final step fails. -/
theorem cipher_failure_masked_witness :
    encrypt failEvp (constLabel 1 false) (constLabel 5 false) = List.replicate LABEL_SIZE 0 ∧
    decrypt failEvp (constLabel 0 true) (constLabel 1 false) (List.replicate 16 7)
      = constLabel 0 true ∧
    (∃ written,
      finalFailEvp.decryptUpdate (constLabel 1 false).data (List.replicate 16 7)
        = some written ∧
      decrypt finalFailEvp (constLabel 0 true) (constLabel 1 false) (List.replicate 16 7) =
        { data := fun i => written.getD i.val ((constLabel 0 true).data i)
          permute_bit := (constLabel 0 true).permute_bit }) ∧
    createGarbledANDGate failEvp (constLabel 1 false) (constLabel 2 true) (constLabel 3 false)
        (constLabel 4 true) (constLabel 5 false) (constLabel 6 true)
      = { table := List.replicate (4 * LABEL_SIZE) 0 } ∧
    evaluateGarbledANDGate failEvp (constLabel 0 true) { table := List.replicate 64 7 }
        (constLabel 2 true) (constLabel 4 true) = constLabel 0 true :=
  ⟨(cipher_failure_masked failEvp).1 _ _ rfl,
    (cipher_failure_masked failEvp).2.1 _ _ _ rfl,
    (cipher_failure_masked finalFailEvp).2.2.1 _ _ _ rfl,
    (cipher_failure_masked failEvp).2.2.2.1 (fun _ _ => rfl) _ _ _ _ _ _,
    (cipher_failure_masked failEvp).2.2.2.2 _ _ _ _ (fun _ => rfl)⟩

/-- C7 as stated fails: when context creation fails, `encrypt` returns sixteen zero
bytes, which is also what a working cipher returns for a genuine encryption (the toy
cipher on equal key and plaintext), so the caller cannot tell the failure;
`createGarbledANDGate` stores these zero rows, and `decrypt` returns the unset label it
was given. When only the final step of decryption fails, `decrypt` returns the same
data bytes as the working toy cipher. -/
theorem cipher_failure_counterexample :
    encryptFails failEvp (constLabel 1 false) (constLabel 5 false) = true ∧
    encrypt failEvp (constLabel 1 false) (constLabel 5 false)
      = encrypt xorEvp (constLabel 5 false) (constLabel 5 false) ∧
    encrypt failEvp (constLabel 1 false) (constLabel 5 false) = List.replicate 16 0 ∧
    (createGarbledANDGate failEvp (constLabel 1 false) (constLabel 2 true)
        (constLabel 3 false) (constLabel 4 true) (constLabel 5 false)
        (constLabel 6 true)).table = List.replicate 64 0 ∧
    decryptFailsEarly failEvp (constLabel 1 false) (List.replicate 16 7) = true ∧
    decrypt failEvp (constLabel 0 true) (constLabel 1 false) (List.replicate 16 7)
      = constLabel 0 true ∧
    decryptFailsFinal finalFailEvp (constLabel 1 false) (List.replicate 16 7) = true ∧
    decrypt finalFailEvp (constLabel 0 true) (constLabel 1 false) (List.replicate 16 7)
      = decrypt xorEvp (constLabel 0 true) (constLabel 1 false) (List.replicate 16 7) := by
  decide

/-! ## The circuit placeholder (C8) -/

/-- C8 (as amended). `createPIRCircuit` is a placeholder that adds no gate: for all
`m`, `n`, `value_bits` and label vectors the gate vector after the call is the gate
vector before it, so its size is unchanged (0 for the empty vector `main` passes). -/
theorem createPIRCircuit_adds_no_gate (m n value_bits : Nat) (gates : List GarbledGate)
    (client_id_labels record_idx_labels output_labels : List (WireLabel × WireLabel)) :
    createPIRCircuit m n value_bits gates client_id_labels record_idx_labels output_labels
      = gates ∧
    (createPIRCircuit m n value_bits [] client_id_labels record_idx_labels
      output_labels).length = 0 :=
  ⟨rfl, rfl⟩

/-- C8 as stated fails: for `m = 10`, `n = 5`, `value_bits = 4` and the empty gate
vector, the gate vector after the call has size 0, which is below `m * n = 50`. -/
theorem createPIRCircuit_counterexample :
    ¬ (10 * 5 ≤ (createPIRCircuit 10 5 4 [] [] [] []).length) := by
  decide

/-! ## The run of `main` (C3, C4) -/

theorem log2_10 : Nat.log2 10 = 3 := by simp [Nat.log2]

theorem log2_5 : Nat.log2 5 = 2 := by simp [Nat.log2]

theorem log2_16 : Nat.log2 16 = 4 := by simp [Nat.log2]

/-- The run of `main` in closed form: labels 0 and 1 are `client_id_labels[0]`,
labels 8 and 9 are `record_idx_labels[0]`, labels `14 + 2i` and `15 + 2i` are
`output_labels[i]`; the held labels are label 1 (bit 0 of `client_id = 3` is 1) and
label 8 (bit 0 of `record_idx = 2` is 0). -/
theorem main_eq (c : Evp) (rnd : Nat → Block × Nat) (junk : Nat → WireLabel)
    (database : List (List Nat)) (row : List Nat) (v : Nat)
    (hrow : database[3]? = some row) (hv : row[2]? = some v) :
    ∃ r, main c rnd junk database = some r ∧
      r.expected_value = v ∧
      r.output_labels = (List.range 5).map (fun i =>
        (nthLabel rnd (14 + 2 * i), nthLabel rnd (14 + 2 * i + 1))) ∧
      r.result_labels = (List.range 5).map (fun i =>
        { evaluateGarbledANDGate c (junk i)
            (createGarbledANDGate c (nthLabel rnd 0) (nthLabel rnd 1) (nthLabel rnd 8)
              (nthLabel rnd 9) (nthLabel rnd (14 + 2 * i)) (nthLabel rnd (14 + 2 * i + 1)))
            (nthLabel rnd 1) (nthLabel rnd 8) with permute_bit := bitAt v i }) ∧
      r.result_verified = true := by
  unfold main pirMain
  simp only [log2_10, log2_5, log2_16]
  simp [List.range_succ, hrow, hv, mainOutputBit, List.enum, List.enumFrom, bitAt,
    List.mapM.loop]

theorem isDatabase_cell (database : List (List Nat)) (hdb : IsDatabase 10 5 16 database) :
    ∃ row, database[3]? = some row ∧ row[2]? = some (cell database 3 2) ∧
      cell database 3 2 < 16 := by
  obtain ⟨hlen, hrows⟩ := hdb
  have h3 : 3 < database.length := by omega
  obtain ⟨hrow, hvals⟩ := hrows database[3] (List.getElem_mem _)
  have h2 : 2 < database[3].length := by omega
  have hcell : cell database 3 2 = database[3][2] := by
    simp [cell, List.getD_eq_getElem?_getD, List.getElem?_eq_getElem h3,
      List.getElem?_eq_getElem h2]
  refine ⟨database[3], List.getElem?_eq_getElem h3, ?_, ?_⟩
  · rw [hcell]
    exact List.getElem?_eq_getElem h2
  · rw [hcell]
    exact hvals _ (List.getElem_mem _)

theorem isDatabase_constDb (v : Nat) (hv : v < 16) : IsDatabase 10 5 16 (constDb v) := by
  refine ⟨by simp [constDb], ?_⟩
  intro row hrow
  obtain ⟨-, rfl⟩ := List.mem_replicate.mp hrow
  refine ⟨by simp, ?_⟩
  intro x hx
  obtain ⟨-, rfl⟩ := List.mem_replicate.mp hx
  exact hv

theorem bitsToNat_bitAt (v : Nat) (hv : v < 16) :
    bitsToNat ((List.range 5).map (bitAt v)) = v := by
  interval_cases v <;> decide

/-- The gate `main` evaluates for output wire `i` is the AND gate of wire 0 of the
client id and wire 0 of the record index, held labels for the combination (1,0):
with a working cipher and well-formed permute bits its result carries the data of
`output_labels[i].first`. -/
theorem main_gate_data (c : Evp) (hc : c.Sound) (rnd : Nat → Block × Nat)
    (plaintext0 : WireLabel) (i : Nat)
    (h0 : (nthLabel rnd 1).permute_bit = !(nthLabel rnd 0).permute_bit)
    (h1f : (nthLabel rnd 8).permute_bit = false) (h1t : (nthLabel rnd 9).permute_bit = true) :
    (evaluateGarbledANDGate c plaintext0
      (createGarbledANDGate c (nthLabel rnd 0) (nthLabel rnd 1) (nthLabel rnd 8)
        (nthLabel rnd 9) (nthLabel rnd (14 + 2 * i)) (nthLabel rnd (14 + 2 * i + 1)))
      (nthLabel rnd 1) (nthLabel rnd 8)).data = (nthLabel rnd (14 + 2 * i)).data := by
  have h1 : (nthLabel rnd 9).permute_bit = !(nthLabel rnd 8).permute_bit := by
    rw [h1f, h1t]; rfl
  have hrow10 := (create_rowOf c (nthLabel rnd 0) (nthLabel rnd 1) (nthLabel rnd 8)
    (nthLabel rnd 9) (nthLabel rnd (14 + 2 * i)) (nthLabel rnd (14 + 2 * i + 1)) h0 h1).2.2.1
  rw [evaluate_eq_decrypt_row, hrow10, h1f, if_neg Bool.false_ne_true,
    decrypt_row_encrypt c hc]

/-- C3. For every cipher, every random draw, and every 10 x 5 database of values in
`0..15`, `main` (with `client_id = 3`, `record_idx = 2`) runs to its end, the bits it
reads off the result labels (bit `i` is `result_labels[i].permute_bit`, one per
output wire) reassemble to `database[3][2]`, and the verification reports SUCCESS. -/
theorem main_retrieves_cell (c : Evp) (rnd : Nat → Block × Nat) (junk : Nat → WireLabel)
    (database : List (List Nat)) (hdb : IsDatabase 10 5 16 database) :
    ∃ r, main c rnd junk database = some r ∧
      r.output_labels.length = 5 ∧
      r.result_labels.length = r.output_labels.length ∧
      bitsToNat (r.result_labels.map fun l => l.permute_bit) = cell database 3 2 ∧
      r.result_verified = true := by
  obtain ⟨row, hrow, hv, hlt⟩ := isDatabase_cell database hdb
  obtain ⟨r, hr, -, hout, hres, hver⟩ := main_eq c rnd junk database row _ hrow hv
  refine ⟨r, hr, by rw [hout]; simp, by rw [hres, hout]; simp, ?_, hver⟩
  rw [hres, List.map_map]
  exact bitsToNat_bitAt _ hlt

/-- Witness of C3: the toy cipher, the draw `rnd0` and the database whose cells all
hold 9; the bits read off reassemble to 9. -/
theorem main_retrieves_cell_witness :
    ∃ r, main xorEvp rnd0 junk0 (constDb 9) = some r ∧
      r.output_labels.length = 5 ∧
      r.result_labels.length = r.output_labels.length ∧
      bitsToNat (r.result_labels.map fun l => l.permute_bit) = 9 ∧
      r.result_verified = true :=
  main_retrieves_cell xorEvp rnd0 junk0 (constDb 9) (isDatabase_constDb 9 (by decide))

/-- C4 (as amended). The label `main` evaluates for output wire `i` does not carry
the database bit in its data: for every cipher and random draw and any two 10 x 5
databases of values in `0..15`, the two runs have the same output pairs and evaluate
labels with the same 16 data bytes for every output wire. When moreover the cipher
works, `client_id_labels[0]` is a pair with complementary permute bits and
`record_idx_labels[0]` has permute bits `(false, true)`, these data bytes are those
of `output_labels[i].first` for every output wire `i`, whatever the database. -/
theorem main_label_ignores_database (c : Evp) (rnd : Nat → Block × Nat)
    (junk : Nat → WireLabel) (database database' : List (List Nat))
    (hdb : IsDatabase 10 5 16 database) (hdb' : IsDatabase 10 5 16 database') :
    ∃ r r', main c rnd junk database = some r ∧ main c rnd junk database' = some r' ∧
      r'.output_labels = r.output_labels ∧
      (r'.result_labels.map fun l => l.data) = (r.result_labels.map fun l => l.data) ∧
      (c.Sound → (nthLabel rnd 1).permute_bit = !(nthLabel rnd 0).permute_bit →
        (nthLabel rnd 8).permute_bit = false → (nthLabel rnd 9).permute_bit = true →
        (r.result_labels.map fun l => l.data) = (r.output_labels.map fun o => o.1.data)) := by
  obtain ⟨row, hrow, hv, -⟩ := isDatabase_cell database hdb
  obtain ⟨row', hrow', hv', -⟩ := isDatabase_cell database' hdb'
  obtain ⟨r, hr, -, hout, hres, -⟩ := main_eq c rnd junk database row _ hrow hv
  obtain ⟨r', hr', -, hout', hres', -⟩ := main_eq c rnd junk database' row' _ hrow' hv'
  refine ⟨r, r', hr, hr', by rw [hout, hout'], by rw [hres, hres']; simp, ?_⟩
  intro hc h0 h1f h1t
  rw [hres, hout, List.map_map, List.map_map]
  apply List.map_congr_left
  intro i _
  exact main_gate_data c hc rnd (junk i) i h0 h1f h1t

/-- Witness of C4 (as amended): the toy cipher, the draw `rnd0`, the databases whose
cells all hold 9 and all hold 6. -/
theorem main_label_ignores_database_witness :
    ∃ r r', main xorEvp rnd0 junk0 (constDb 9) = some r ∧
      main xorEvp rnd0 junk0 (constDb 6) = some r' ∧
      r'.output_labels = r.output_labels ∧
      (r'.result_labels.map fun l => l.data) = (r.result_labels.map fun l => l.data) ∧
      (r.result_labels.map fun l => l.data) = (r.output_labels.map fun o => o.1.data) := by
  obtain ⟨r, r', h1, h2, h3, h4, h5⟩ :=
    main_label_ignores_database xorEvp rnd0 junk0 (constDb 9) (constDb 6)
      (isDatabase_constDb 9 (by decide)) (isDatabase_constDb 6 (by decide))
  exact ⟨r, r', h1, h2, h3, h4, h5 xorEvp_sound rfl rfl rfl⟩

/-- C4 as stated fails: with the toy cipher, the draw `rnd0` and the database whose
cells all hold 9, bit 0 of `database[3][2]` is 1, but the label evaluated for output
wire 0 has the data bytes 15 of `output_labels[0].first`, not the bytes 16 of
`output_labels[0].second`. -/
theorem main_label_counterexample :
    bitAt (cell (constDb 9) 3 2) 0 = true ∧
    ∃ r, main xorEvp rnd0 junk0 (constDb 9) = some r ∧
      r.output_labels[0]? = some (nthLabel rnd0 14, nthLabel rnd0 15) ∧
      (r.result_labels[0]?.map fun l => l.data) = some (nthLabel rnd0 14).data ∧
      (nthLabel rnd0 14).data ≠ (nthLabel rnd0 15).data := by
  refine ⟨by decide, ?_⟩
  obtain ⟨r, hr, -, hout, hres, -⟩ :=
    main_eq xorEvp rnd0 junk0 (constDb 9) (List.replicate 5 9) 9 rfl rfl
  refine ⟨r, hr, by rw [hout]; rfl, ?_, ?_⟩
  · rw [hres]
    show some (evaluateGarbledANDGate xorEvp (junk0 0) _ (nthLabel rnd0 1)
      (nthLabel rnd0 8)).data = some (nthLabel rnd0 (14 + 2 * 0)).data
    rw [main_gate_data xorEvp xorEvp_sound rnd0 (junk0 0) 0 rfl rfl rfl]
  · intro h
    have h0 := congrFun h 0
    revert h0
    decide

/-! ## Label pairs (C2) -/

/-- C2. For every value of `global_delta` and every random draw of `label0`, the pair
returned by `generateLabelPair` satisfies `label1.data[i] XOR label0.data[i] ==
global_delta.data[i]` for every byte `i` in `0..15`, its first component is the drawn
label, and `label1.permute_bit` is the complement of `label0.permute_bit`. -/
theorem generateLabelPair_xor_delta (global_delta : WireLabel) (bytes : Block) (r : Nat) :
    (generateLabelPair global_delta bytes r).1 = generateRandomLabel bytes r ∧
    (∀ i : Fin 16,
      (generateLabelPair global_delta bytes r).2.data i ^^^
        (generateLabelPair global_delta bytes r).1.data i = global_delta.data i) ∧
    (generateLabelPair global_delta bytes r).2.permute_bit
      = !(generateLabelPair global_delta bytes r).1.permute_bit := by
  refine ⟨rfl, ?_, rfl⟩
  intro i
  show (bytes i ^^^ global_delta.data i) ^^^ bytes i = global_delta.data i
  rw [Nat.xor_comm (bytes i), Nat.xor_assoc, Nat.xor_self, Nat.xor_zero]

/-! ## Oblivious transfer stand-in (C9, C10) -/

theorem getClientInputLabelsFrom_spec (wire_labels : List (WireLabel × WireLabel)) :
    ∀ (input_bits : List Bool) (i : Nat) (result : List WireLabel),
      i + input_bits.length ≤ wire_labels.length →
      ∃ out, getClientInputLabelsFrom wire_labels i input_bits result = some (result ++ out) ∧
        out.length = input_bits.length ∧
        ∀ j (hj : j < input_bits.length),
          out[j]? = (wire_labels[i + j]?).map fun wl =>
            if input_bits[j] then wl.2 else wl.1 := by
  intro input_bits
  induction input_bits with
  | nil =>
    intro i result _
    exact ⟨[], by simp [getClientInputLabelsFrom], rfl, by simp⟩
  | cons bit rest ih =>
    intro i result hlen
    have hi : i < wire_labels.length := by simp at hlen; omega
    obtain ⟨out, hout, hl, hget⟩ :=
      ih (i + 1) (result ++ [obliviousTransfer wire_labels[i].1 wire_labels[i].2 bit])
        (by simp at hlen; omega)
    refine ⟨obliviousTransfer wire_labels[i].1 wire_labels[i].2 bit :: out, ?_, by simp [hl], ?_⟩
    · simp [getClientInputLabelsFrom, List.getElem?_eq_getElem hi, hout]
    · intro j hj
      cases j with
      | zero => simp [List.getElem?_eq_getElem hi, obliviousTransfer]
      | succ j =>
        have hj2 : j < rest.length := by simpa using hj
        have := hget j hj2
        simpa [Nat.add_assoc, Nat.add_comm 1 j] using this

/-- C9. For every list of wire pairs and every list of choice bits no longer than it,
`getClientInputLabels` returns a list of exactly `input_bits.size()` labels whose
`i`-th element is `wire_labels[i].second` when `input_bits[i]` is true and
`wire_labels[i].first` when it is false. -/
theorem getClientInputLabels_spec (wire_labels : List (WireLabel × WireLabel))
    (input_bits : List Bool) (hlen : input_bits.length ≤ wire_labels.length) :
    ∃ result, getClientInputLabels wire_labels input_bits = some result ∧
      ∃ hsize : result.length = input_bits.length,
        ∀ i (hi : i < input_bits.length),
          result[i] = if input_bits[i] then wire_labels[i].2 else wire_labels[i].1 := by
  obtain ⟨out, hout, hl, hget⟩ :=
    getClientInputLabelsFrom_spec wire_labels input_bits 0 [] (by simpa using hlen)
  refine ⟨out, by simpa [getClientInputLabels] using hout, hl, ?_⟩
  intro i hi
  have hw : i < wire_labels.length := by omega
  have h := hget i hi
  rw [List.getElem?_eq_getElem (by omega), Nat.zero_add, List.getElem?_eq_getElem hw] at h
  simpa using h

/-- Witness of C9 on two wire pairs and the choice bits `[true, false]`. -/
theorem getClientInputLabels_spec_witness :
    ∃ result,
      getClientInputLabels
          [(constLabel 1 false, constLabel 2 true), (constLabel 3 true, constLabel 4 false)]
          [true, false] = some result ∧
      ∃ hsize : result.length = [true, false].length,
        ∀ i (hi : i < [true, false].length),
          result[i] = if [true, false][i] then
              [(constLabel 1 false, constLabel 2 true),
                (constLabel 3 true, constLabel 4 false)][i].2
            else
              [(constLabel 1 false, constLabel 2 true),
                (constLabel 3 true, constLabel 4 false)][i].1 :=
  getClientInputLabels_spec _ _ (by decide)

/-- C10. The result of `obliviousTransfer` does not depend on the unchosen label:
with choice `true` the first label may be replaced by any other, with choice `false`
the second one may, and the result is the same. -/
theorem obliviousTransfer_ignores_unchosen (l0 l0' l1 l1' : WireLabel) :
    obliviousTransfer l0 l1 true = obliviousTransfer l0' l1 true ∧
    obliviousTransfer l0 l1 false = obliviousTransfer l0 l1' false :=
  ⟨rfl, rfl⟩

/-! ## Parameter validation (C11, C12) -/

/-- C11. The function `validateParameters(m, n, client_id, record_idx)` returns true
if and only if `client_id < m` and `record_idx < n`; it returns false for every
client index at or above `m` and every record index at or above `n`, hence for every
input when `m = 0` or `n = 0`. It takes no cipher and no label, so it performs no
cryptographic work. -/
theorem validateParameters_iff (m n client_id record_idx : Nat) :
    (validateParameters m n client_id record_idx = true ↔ client_id < m ∧ record_idx < n) ∧
    (∀ k, validateParameters m n (m + k) record_idx = false) ∧
    (∀ k, validateParameters m n client_id (n + k) = false) ∧
    validateParameters 0 n client_id record_idx = false ∧
    validateParameters m 0 client_id record_idx = false := by
  refine ⟨?_, ?_, ?_, ?_, ?_⟩
  · unfold validateParameters
    split
    · simp; omega
    · split
      · simp; omega
      · simp; omega
  · intro k
    simp [validateParameters]
  · intro k
    simp [validateParameters]
  · simp [validateParameters]
  · simp [validateParameters]

/-- C12 (as amended). An out-of-domain client index is rejected, not answered with
the all-zero value: for every `m`, `n` and record index, `validateParameters` returns
false for the client index `m` and for every client index above it. -/
theorem validateParameters_rejects_owner (m n record_idx k : Nat) :
    validateParameters m n m record_idx = false ∧
    validateParameters m n (m + k) record_idx = false := by
  constructor
  · unfold validateParameters
    rw [if_pos (Nat.le_refl m)]
  · unfold validateParameters
    rw [if_pos (Nat.le_add_right m k)]

/-- C12 as stated fails: for `m = 10`, `n = 5`, the client index 10 and the valid
record index 2, `validateParameters` rejects the query, and the body of `main` run
with these indices on a 10 x 5 database reads `database[10]` out of range and yields
no value at all, in particular not the all-zero value. -/
theorem out_of_domain_counterexample :
    validateParameters 10 5 10 2 = false ∧
    pirMain xorEvp rnd0 junk0 (constDb 9) 10 5 16 10 2 = none := by
  refine ⟨by decide, ?_⟩
  unfold pirMain
  simp only [log2_10, log2_5, log2_16]
  simp [List.range_succ, constDb]

/-! ## Constant-time comparison (C13) -/

theorem lor_eq_zero (a b : Nat) : a ||| b = 0 ↔ a = 0 ∧ b = 0 := by
  constructor
  · intro h
    have hbits : ∀ i, (a.testBit i || b.testBit i) = false := by
      intro i
      rw [← Nat.testBit_or, h, Nat.zero_testBit]
    constructor
    · apply Nat.eq_of_testBit_eq
      intro i
      have := hbits i
      rw [Nat.zero_testBit]
      cases ha : a.testBit i
      · rfl
      · rw [ha] at this
        simp at this
    · apply Nat.eq_of_testBit_eq
      intro i
      have := hbits i
      rw [Nat.zero_testBit]
      cases hb : b.testBit i
      · rfl
      · rw [hb, Bool.or_true] at this
        simp at this
  · rintro ⟨rfl, rfl⟩
    rfl

theorem foldl_lor_trace (f : Fin 16 → Nat) (l : List (Fin 16)) (st : Nat × List Nat) :
    l.foldl (fun st i => (st.1 ||| f i, st.2 ++ [i.val])) st
      = (l.foldl (fun r i => r ||| f i) st.1, st.2 ++ l.map (fun i => i.val)) := by
  induction l generalizing st with
  | nil => simp
  | cons x xs ih => simp [ih]

theorem foldl_lor_eq_zero (f : Fin 16 → Nat) (l : List (Fin 16)) (r : Nat) :
    l.foldl (fun r i => r ||| f i) r = 0 ↔ r = 0 ∧ ∀ i ∈ l, f i = 0 := by
  induction l generalizing r with
  | nil => simp
  | cons x xs ih =>
    rw [List.foldl_cons, ih, lor_eq_zero]
    simp only [List.mem_cons, forall_eq_or_imp]
    tauto

theorem constantTimeEqualsLoop_zero (a b : WireLabel) :
    (constantTimeEqualsLoop a b).1 = 0 ↔ a.data = b.data := by
  unfold constantTimeEqualsLoop
  rw [foldl_lor_trace (fun i => a.data i ^^^ b.data i), foldl_lor_eq_zero]
  constructor
  · rintro ⟨-, h⟩
    funext i
    exact Nat.xor_eq_zero.mp (h i (List.mem_finRange i))
  · intro h
    refine ⟨rfl, fun i _ => ?_⟩
    rw [h]
    exact Nat.xor_self _

theorem memcmp_eq_zero (xs ys : Block) : memcmp xs ys = 0 ↔ xs = ys := by
  unfold memcmp
  split
  · next h =>
    rw [List.find?_eq_none] at h
    constructor
    · intro _
      funext i
      have := h i (List.mem_finRange i)
      simpa using this
    · intro _
      rfl
  · next i h =>
    have hne : xs i ≠ ys i := by
      have := List.find?_some h
      simpa using this
    constructor
    · intro h0
      exact absurd (by omega : xs i = ys i) hne
    · intro heq
      exact absurd (congrFun heq i) hne

theorem wireLabel_eq_iff (a b : WireLabel) :
    a = b ↔ a.data = b.data ∧ a.permute_bit = b.permute_bit := by
  constructor
  · rintro rfl
    exact ⟨rfl, rfl⟩
  · rintro ⟨h1, h2⟩
    cases a
    cases b
    simp only at h1 h2
    rw [h1, h2]

/-- C13. The function `constantTimeEquals(a, b)` returns true if and only if all 16
data bytes of `a` and `b` are equal and `a.permute_bit == b.permute_bit`; it agrees
with `WireLabel::operator==` on every pair of labels; and its loop reads the 16 byte
positions `0 .. 15`, all of them, whatever the two labels are. -/
theorem constantTimeEquals_spec (a b : WireLabel) :
    (constantTimeEquals a b = true ↔
      (∀ i : Fin 16, a.data i = b.data i) ∧ a.permute_bit = b.permute_bit) ∧
    constantTimeEquals a b = operatorEq a b ∧
    (constantTimeEquals a b = true ↔ a = b) ∧
    (constantTimeEqualsLoop a b).2 = List.range 16 := by
  have hct : constantTimeEquals a b = true ↔ a.data = b.data ∧ a.permute_bit = b.permute_bit := by
    unfold constantTimeEquals
    rw [Bool.and_eq_true, beq_iff_eq, beq_iff_eq, constantTimeEqualsLoop_zero]
  have hop : operatorEq a b = true ↔ a.data = b.data ∧ a.permute_bit = b.permute_bit := by
    unfold operatorEq
    rw [Bool.and_eq_true, beq_iff_eq, beq_iff_eq, memcmp_eq_zero]
  refine ⟨?_, ?_, ?_, ?_⟩
  · rw [hct]
    constructor
    · rintro ⟨h1, h2⟩
      exact ⟨fun i => congrFun h1 i, h2⟩
    · rintro ⟨h1, h2⟩
      exact ⟨funext h1, h2⟩
  · rw [Bool.eq_iff_iff, hct, hop]
  · rw [hct, wireLabel_eq_iff]
  · unfold constantTimeEqualsLoop
    rw [foldl_lor_trace (fun i => a.data i ^^^ b.data i)]
    show [] ++ List.map (fun i : Fin 16 => i.val) (List.finRange 16) = List.range 16
    decide

/-! ## The Free-XOR delta (C14) -/

/-- C14. For every outcome `bytes` of the random byte generator, after
`initializeFreeXOR` the least-significant bit of `global_delta.data[0]` is 1, every
other bit of byte 0 and every byte `1 .. 15` are exactly the random ones drawn, and
`global_delta.permute_bit` is true. -/
theorem initializeFreeXOR_spec (bytes : Block) :
    (initializeFreeXOR bytes).data 0 % 2 = 1 ∧
    (initializeFreeXOR bytes).data 0 = bytes 0 ||| 1 ∧
    (∀ j, ((initializeFreeXOR bytes).data 0).testBit (j + 1) = (bytes 0).testBit (j + 1)) ∧
    (∀ i : Fin 15, (initializeFreeXOR bytes).data i.succ = bytes i.succ) ∧
    (initializeFreeXOR bytes).permute_bit = true := by
  refine ⟨?_, rfl, ?_, ?_, rfl⟩
  · show (bytes 0 ||| 1) % 2 = 1
    rw [Nat.or_mod_two_eq_one]
    exact Or.inr rfl
  · intro j
    show (bytes 0 ||| 1).testBit (j + 1) = (bytes 0).testBit (j + 1)
    have h1 : Nat.testBit 1 (j + 1) = false := by
      rw [Nat.testBit_succ]
      simp
    rw [Nat.testBit_or, h1, Bool.or_false]
  · intro i
    show (if i.succ = 0 then bytes i.succ ||| 1 else bytes i.succ) = bytes i.succ
    rw [if_neg (Fin.succ_ne_zero i)]

/-! ## The wire pairs of `main` (C15) -/

/-- The three label vectors of `main` in closed form. -/
theorem main_pairs (c : Evp) (rnd : Nat → Block × Nat) (junk : Nat → WireLabel)
    (database : List (List Nat)) (row : List Nat) (v : Nat)
    (hrow : database[3]? = some row) (hv : row[2]? = some v) :
    ∃ r, main c rnd junk database = some r ∧
      r.client_id_labels = (List.range 4).map (fun i =>
        (nthLabel rnd (2 * i), nthLabel rnd (2 * i + 1))) ∧
      r.record_idx_labels = (List.range 3).map (fun i =>
        (nthLabel rnd (8 + 2 * i), nthLabel rnd (8 + 2 * i + 1))) ∧
      r.output_labels = (List.range 5).map (fun i =>
        (nthLabel rnd (14 + 2 * i), nthLabel rnd (14 + 2 * i + 1))) := by
  unfold main pirMain
  simp only [log2_10, log2_5, log2_16]
  simp [List.range_succ, hrow, hv, mainOutputBit, List.enum, List.enumFrom, bitAt,
    List.mapM.loop]

/-- C15 fails on the code. In the run of `main` on the random draw `rnd1` (bytes
`k + 1` and `rand() = 2 k + 4` at call `k`) every pair created for the client-id,
record-index and output wires has two labels with the same permute bit and different
data, so it violates the WirePair invariant for the zero-initialised `global_delta`
that `main` leaves untouched, and for every other delta as well. -/
theorem main_pairs_violate_invariant :
    ∃ r, main xorEvp rnd1 junk0 (constDb 9) = some r ∧
      ∀ pair ∈ r.client_id_labels ++ r.record_idx_labels ++ r.output_labels,
        pair.2.permute_bit = pair.1.permute_bit ∧ pair.2.data ≠ pair.1.data ∧
        ¬ WirePairInvariant global_delta_initial pair ∧
        ∀ delta, ¬ WirePairInvariant delta pair := by
  obtain ⟨r, hr, hcl, hrl, hol⟩ :=
    main_pairs xorEvp rnd1 junk0 (constDb 9) (List.replicate 5 9) 9 rfl rfl
  refine ⟨r, hr, ?_⟩
  have key : ∀ a : Nat,
      (nthLabel rnd1 (a + 1)).permute_bit = (nthLabel rnd1 a).permute_bit ∧
      (nthLabel rnd1 (a + 1)).data ≠ (nthLabel rnd1 a).data ∧
      ¬ WirePairInvariant global_delta_initial (nthLabel rnd1 a, nthLabel rnd1 (a + 1)) ∧
      ∀ delta, ¬ WirePairInvariant delta (nthLabel rnd1 a, nthLabel rnd1 (a + 1)) := by
    intro a
    have hp : ∀ k, (nthLabel rnd1 k).permute_bit = false := by
      intro k
      have hk : (2 * k + 4) % 2 = 0 := by omega
      simp [nthLabel, rnd1, generateRandomLabel, hk]
    have hbits : ∀ delta, ¬ WirePairInvariant delta (nthLabel rnd1 a, nthLabel rnd1 (a + 1)) := by
      intro delta h
      have h2 := h.2
      simp [hp] at h2
    refine ⟨by rw [hp, hp], ?_, hbits _, hbits⟩
    intro hd
    have h0 := congrFun hd 0
    simp [nthLabel, rnd1, generateRandomLabel] at h0
  intro pair hp
  rw [hcl, hrl, hol] at hp
  simp only [List.mem_append, List.mem_map, List.mem_range] at hp
  rcases hp with (⟨i, -, rfl⟩ | ⟨i, -, rfl⟩) | ⟨i, -, rfl⟩
  · exact key (2 * i)
  · exact key (8 + 2 * i)
  · exact key (14 + 2 * i)

/-! ## Corrupted table rows (C16) -/

theorem createGarbledANDGate_length (c : Evp) (in0f in0t in1f in1t outF outT : WireLabel) :
    (createGarbledANDGate c in0f in0t in1f in1t outF outT).table.length = 64 := by
  simp only [createGarbledANDGate, memcpyAt_length, List.length_replicate]
  rfl

/-- C19. For any two pairs returned by `generateLabelPair` under the same
`global_delta` and all cleartext bits `x`, `y`: the bytewise XOR of the held labels
is `a0 XOR b0` when `x = y` and `(a0 XOR b0) XOR global_delta` otherwise, and the XOR
of their permute bits is `(a0.permute_bit XOR b0.permute_bit) XOR (x XOR y)`. -/
theorem free_xor_closure (global_delta : WireLabel) (bytesA bytesB : Block) (rA rB : Nat)
    (x y : Bool) :
    (∀ i : Fin 16,
      (heldLabel (generateLabelPair global_delta bytesA rA) x).data i ^^^
          (heldLabel (generateLabelPair global_delta bytesB rB) y).data i =
        if x = y then
          (generateLabelPair global_delta bytesA rA).1.data i ^^^
            (generateLabelPair global_delta bytesB rB).1.data i
        else
          ((generateLabelPair global_delta bytesA rA).1.data i ^^^
            (generateLabelPair global_delta bytesB rB).1.data i) ^^^ global_delta.data i) ∧
    Bool.xor (heldLabel (generateLabelPair global_delta bytesA rA) x).permute_bit
        (heldLabel (generateLabelPair global_delta bytesB rB) y).permute_bit =
      Bool.xor
        (Bool.xor (generateLabelPair global_delta bytesA rA).1.permute_bit
          (generateLabelPair global_delta bytesB rB).1.permute_bit)
        (Bool.xor x y) := by
  constructor
  · intro i
    cases x <;> cases y
    · rfl
    · show bytesA i ^^^ (bytesB i ^^^ global_delta.data i)
        = (bytesA i ^^^ bytesB i) ^^^ global_delta.data i
      rw [Nat.xor_assoc]
    · show (bytesA i ^^^ global_delta.data i) ^^^ bytesB i
        = (bytesA i ^^^ bytesB i) ^^^ global_delta.data i
      rw [Nat.xor_assoc, Nat.xor_assoc, Nat.xor_comm (bytesB i)]
    · show (bytesA i ^^^ global_delta.data i) ^^^ (bytesB i ^^^ global_delta.data i)
        = bytesA i ^^^ bytesB i
      rw [Nat.xor_assoc, Nat.xor_comm (bytesB i), Nat.xor_cancel_left]
  · simp only [heldLabel, generateLabelPair, generateRandomLabel]
    generalize (rA % 2 == 1) = pa
    generalize (rB % 2 == 1) = pb
    cases x <;> cases y <;> cases pa <;> cases pb <;> rfl

/-! ## Row assignment in the garbler (C20) -/

/-- C20. The table of `createGarbledANDGate` is the four row writes at the indices
`idx00`, `idx01`, `idx10`, `idx11`. When both input pairs have complementary permute
bits these indices are pairwise distinct and are exactly 0, 1, 2, 3, and each row
holds the ciphertext written for its combination, so no row is overwritten. When the
two labels of an input pair share a permute bit, two of the four indices coincide, so
a row is written twice, and some row is never written and stays zero. -/
theorem row_assignment (c : Evp) (in0f in0t in1f in1t outF outT : WireLabel) :
    (createGarbledANDGate c in0f in0t in1f in1t outF outT).table =
      memcpyAt (memcpyAt (memcpyAt (memcpyAt (List.replicate (4 * LABEL_SIZE) 0)
        ((rowIndices in0f in0t in1f in1t).getD 0 0 * LABEL_SIZE)
          (encrypt c in0f outF) LABEL_SIZE)
        ((rowIndices in0f in0t in1f in1t).getD 1 0 * LABEL_SIZE)
          (encrypt c in1t outF) LABEL_SIZE)
        ((rowIndices in0f in0t in1f in1t).getD 2 0 * LABEL_SIZE)
          (encrypt c in0t outF) LABEL_SIZE)
        ((rowIndices in0f in0t in1f in1t).getD 3 0 * LABEL_SIZE)
          (encrypt c in1t outT) LABEL_SIZE ∧
    (in0t.permute_bit = !in0f.permute_bit → in1t.permute_bit = !in1f.permute_bit →
      (rowIndices in0f in0t in1f in1t).Nodup ∧
      (∀ k, k ∈ rowIndices in0f in0t in1f in1t ↔ k < 4) ∧
      rowOf (createGarbledANDGate c in0f in0t in1f in1t outF outT).table
          ((rowIndices in0f in0t in1f in1t).getD 0 0)
        = (List.range 16).map (fun i => (encrypt c in0f outF).getD i 0) ∧
      rowOf (createGarbledANDGate c in0f in0t in1f in1t outF outT).table
          ((rowIndices in0f in0t in1f in1t).getD 1 0)
        = (List.range 16).map (fun i => (encrypt c in1t outF).getD i 0) ∧
      rowOf (createGarbledANDGate c in0f in0t in1f in1t outF outT).table
          ((rowIndices in0f in0t in1f in1t).getD 2 0)
        = (List.range 16).map (fun i => (encrypt c in0t outF).getD i 0) ∧
      rowOf (createGarbledANDGate c in0f in0t in1f in1t outF outT).table
          ((rowIndices in0f in0t in1f in1t).getD 3 0)
        = (List.range 16).map (fun i => (encrypt c in1t outT).getD i 0)) ∧
    (in0t.permute_bit = in0f.permute_bit ∨ in1t.permute_bit = in1f.permute_bit →
      ¬ (rowIndices in0f in0t in1f in1t).Nodup ∧
      ∃ k, k < 4 ∧ k ∉ rowIndices in0f in0t in1f in1t ∧
        rowOf (createGarbledANDGate c in0f in0t in1f in1t outF outT).table k
          = List.replicate 16 0) := by
  have hget : (rowIndices in0f in0t in1f in1t).getD 0 0
        = rowIndex in0f.permute_bit in1f.permute_bit ∧
      (rowIndices in0f in0t in1f in1t).getD 1 0
        = rowIndex in0f.permute_bit in1t.permute_bit ∧
      (rowIndices in0f in0t in1f in1t).getD 2 0
        = rowIndex in0t.permute_bit in1f.permute_bit ∧
      (rowIndices in0f in0t in1f in1t).getD 3 0
        = rowIndex in0t.permute_bit in1t.permute_bit := ⟨rfl, rfl, rfl, rfl⟩
  rw [hget.1, hget.2.1, hget.2.2.1, hget.2.2.2]
  refine ⟨?_, ?_, ?_⟩
  · simp only [createGarbledANDGate]
  · intro h0 h1
    refine ⟨?_, ?_, create_rowOf c in0f in0t in1f in1t outF outT h0 h1⟩
    · unfold rowIndices
      rw [h0, h1]
      cases in0f.permute_bit <;> cases in1f.permute_bit <;> decide
    · intro k
      unfold rowIndices
      rw [h0, h1]
      cases in0f.permute_bit <;> cases in1f.permute_bit <;>
        simp [rowIndex_ff, rowIndex_ft, rowIndex_tf, rowIndex_tt] <;> omega
  · intro h
    have hlen : (List.replicate (4 * LABEL_SIZE) 0).length = 64 := List.length_replicate _ _
    have hzero : ∀ k, rowOf (List.replicate (4 * LABEL_SIZE) 0) k = List.replicate 16 0 := by
      intro k
      unfold rowOf
      apply List.ext_getElem
      · simp
      · intro n h1 h2
        rw [List.getElem_map, List.getElem_replicate, List.getD_eq_getElem?_getD,
          List.getElem?_replicate]
        split <;> rfl
    have hrow : ∀ k, k < 4 → k ∉ rowIndices in0f in0t in1f in1t →
        rowOf (createGarbledANDGate c in0f in0t in1f in1t outF outT).table k
          = List.replicate 16 0 := by
      intro k hk hnot
      simp only [rowIndices, List.mem_cons, List.mem_singleton, List.not_mem_nil, or_false,
        not_or] at hnot
      obtain ⟨n0, n1, n2, n3⟩ := hnot
      simp only [createGarbledANDGate]
      rw [rowOf_four_writes _ _ _ _ _ _ _ _ _ _ hlen (rowIndex_lt _ _) (rowIndex_lt _ _)
        (rowIndex_lt _ _) (rowIndex_lt _ _) hk, if_neg n3, if_neg n2, if_neg n1, if_neg n0]
      exact hzero k
    have hex : ¬ (rowIndices in0f in0t in1f in1t).Nodup ∧
        ∃ k, k < 4 ∧ k ∉ rowIndices in0f in0t in1f in1t := by
      unfold rowIndices
      rcases h with h | h <;> rw [h] <;>
        cases in0f.permute_bit <;> cases in1f.permute_bit <;>
        first
        | cases in1t.permute_bit <;> decide
        | cases in0t.permute_bit <;> decide
    obtain ⟨hnd, k, hk, hnot⟩ := hex
    exact ⟨hnd, k, hk, hnot, hrow k hk hnot⟩

/-- Witness of C20: a gate whose two input pairs have complementary permute bits, and
a gate whose input pair 1 has two labels with permute bit `false`, where rows 0 and 2
are written twice and row 1 is never written. -/
theorem row_assignment_witness :
    ((rowIndices (constLabel 1 true) (constLabel 2 false) (constLabel 3 false)
        (constLabel 4 true)).Nodup ∧
      ∀ k, k ∈ rowIndices (constLabel 1 true) (constLabel 2 false) (constLabel 3 false)
        (constLabel 4 true) ↔ k < 4) ∧
    ¬ (rowIndices (constLabel 1 true) (constLabel 2 false) (constLabel 3 false)
        (constLabel 4 false)).Nodup ∧
    ∃ k, k < 4 ∧
      k ∉ rowIndices (constLabel 1 true) (constLabel 2 false) (constLabel 3 false)
        (constLabel 4 false) ∧
      rowOf (createGarbledANDGate xorEvp (constLabel 1 true) (constLabel 2 false)
        (constLabel 3 false) (constLabel 4 false) (constLabel 5 false)
        (constLabel 6 true)).table k = List.replicate 16 0 :=
  ⟨⟨((row_assignment xorEvp (constLabel 1 true) (constLabel 2 false) (constLabel 3 false)
        (constLabel 4 true) (constLabel 5 false) (constLabel 6 true)).2.1 rfl rfl).1,
      ((row_assignment xorEvp (constLabel 1 true) (constLabel 2 false) (constLabel 3 false)
        (constLabel 4 true) (constLabel 5 false) (constLabel 6 true)).2.1 rfl rfl).2.1⟩,
    (row_assignment xorEvp (constLabel 1 true) (constLabel 2 false) (constLabel 3 false)
      (constLabel 4 false) (constLabel 5 false) (constLabel 6 true)).2.2 (Or.inr rfl)⟩

end GarbledPIR

/-! # The homomorphic-encryption programs: one-hot selection (C17, C18) -/

namespace Vec

theorem foldl_one_hot (g : Nat → Nat) (W p c : Nat) (hz : ∀ j, j ≠ p → g j = 0)
    (hp : g p = c) (hc : c < W) (n : Nat) :
    (List.range n).foldl (fun acc j => (acc + g j) % W) 0 = if p < n then c else 0 := by
  induction n with
  | zero => simp
  | succ k ih =>
    rw [List.range_succ, List.foldl_append, ih]
    simp only [List.foldl_cons, List.foldl_nil]
    by_cases h1 : p < k
    · rw [if_pos h1, if_pos (by omega), hz k (by omega), Nat.add_zero, Nat.mod_eq_of_lt hc]
    · by_cases h2 : p = k
      · subst h2
        rw [if_neg h1, if_pos (by omega), hp, Nat.zero_add, Nat.mod_eq_of_lt hc]
      · rw [if_neg h1, if_neg (by omega), hz k (by omega), Nat.add_zero, Nat.zero_mod]

theorem one_hot_getD (N p j : Nat) (hp : p < N) :
    ((List.replicate N 0).set p 1).getD j 0 = if j = p then 1 else 0 := by
  rw [List.getD_eq_getElem?_getD, List.getElem?_set]
  by_cases h : p = j
  · subst h
    simp [hp]
  · rw [if_neg h, if_neg (fun h2 => h h2.symm), List.getElem?_replicate]
    split <;> rfl

theorem getD_set (xs : List Nat) (a v k : Nat) (ha : a < xs.length) :
    (xs.set a v).getD k 0 = if k = a then v else xs.getD k 0 := by
  rw [List.getD_eq_getElem?_getD, List.getElem?_set]
  by_cases h : a = k
  · subst h
    simp [ha]
  · rw [if_neg h, if_neg (fun h2 => h h2.symm), List.getD_eq_getElem?_getD]

end Vec

namespace HomomorphicPIR

theorem multiplyPlain_getD (t : Nat) (xs ys : List Nat) (i : Nat) :
    (multiplyPlain t xs ys).getD i 0 = (xs.getD i 0 * ys.getD i 0) % t := by
  unfold multiplyPlain
  induction xs generalizing ys i with
  | nil => simp
  | cons x xs ih =>
    cases ys with
    | nil => simp
    | cons y ys =>
      cases i with
      | zero => simp
      | succ i =>
        have := ih ys i
        simpa using this

theorem flatten_row (database : Nat → Nat → Nat) (m n i : Nat) (hi : i < m) (n' : Nat)
    (hn : n' ≤ n) (flat : List Nat) (hlen : i * n + n' ≤ flat.length) :
    ∃ flat', (List.range n').foldlM (fun flat j => do
        let value ← Vec.readCell database m n i j
        Vec.setAt flat (i * n + j) value) flat = some flat' ∧
      flat'.length = flat.length ∧
      ∀ k, flat'.getD k 0 =
        if i * n ≤ k ∧ k < i * n + n' then database i (k - i * n) else flat.getD k 0 := by
  induction n' with
  | zero =>
    refine ⟨flat, by simp, rfl, ?_⟩
    intro k
    rw [if_neg (by omega)]
  | succ n' ih =>
    obtain ⟨flat1, h1, hl1, hg1⟩ := ih (by omega) (by omega)
    have hread : Vec.readCell database m n i n' = some (database i n') := by
      unfold Vec.readCell
      rw [if_pos ⟨hi, by omega⟩]
    have hset : Vec.setAt flat1 (i * n + n') (database i n')
        = some (flat1.set (i * n + n') (database i n')) := by
      unfold Vec.setAt
      rw [if_pos (by omega)]
    refine ⟨flat1.set (i * n + n') (database i n'), ?_, by simp [hl1], ?_⟩
    · rw [List.range_succ, List.foldlM_append, h1]
      simp [hread, hset]
    · intro k
      rw [Vec.getD_set _ _ _ _ (by omega), hg1 k]
      by_cases hk : k = i * n + n'
      · subst hk
        rw [if_pos rfl, if_pos ⟨by omega, by omega⟩, Nat.add_sub_cancel_left]
      · rw [if_neg hk]
        by_cases hw : i * n ≤ k ∧ k < i * n + n'
        · rw [if_pos hw, if_pos ⟨hw.1, by omega⟩]
        · rw [if_neg hw, if_neg (by omega)]

theorem flatten_rows (database : Nat → Nat → Nat) (m n m' : Nat) (hm : m' ≤ m)
    (flat : List Nat) (hlen : m' * n ≤ flat.length) :
    ∃ flat', (List.range m').foldlM (fun flat i =>
        (List.range n).foldlM (fun flat j => do
          let value ← Vec.readCell database m n i j
          Vec.setAt flat (i * n + j) value) flat) flat = some flat' ∧
      flat'.length = flat.length ∧
      ∀ i, i < m' → ∀ j, j < n → flat'.getD (i * n + j) 0 = database i j := by
  induction m' with
  | zero =>
    exact ⟨flat, by simp, rfl, fun i hi => absurd hi (by omega)⟩
  | succ m' ih =>
    have hmul : (m' + 1) * n = m' * n + n := Nat.succ_mul m' n
    obtain ⟨flat1, h1, hl1, hg1⟩ := ih (by omega) (by omega)
    obtain ⟨flat2, h2, hl2, hg2⟩ :=
      flatten_row database m n m' (by omega) n (Nat.le_refl n) flat1 (by omega)
    refine ⟨flat2, ?_, by omega, ?_⟩
    · rw [List.range_succ, List.foldlM_append, h1]
      simp
      exact h2
    · intro i hi j hj
      rw [hg2]
      by_cases him : i = m'
      · subst him
        rw [if_pos ⟨by omega, by omega⟩, Nat.add_sub_cancel_left]
      · have hle : (i + 1) * n ≤ m' * n := Nat.mul_le_mul_right n (by omega)
        rw [Nat.succ_mul] at hle
        rw [if_neg (by omega)]
        exact hg1 i (by omega) j hj

theorem index_lt (m n i j : Nat) (hi : i < m) (hj : j < n) : i * n + j < m * n := by
  have hle : (i + 1) * n ≤ m * n := Nat.mul_le_mul_right n (by omega)
  rw [Nat.succ_mul] at hle
  omega

theorem index_injective (n i j i' j' : Nat) (hj : j < n) (hj' : j' < n)
    (h : i * n + j = i' * n + j') : i = i' ∧ j = j' := by
  rcases Nat.lt_trichotomy i i' with hlt | heq | hgt
  · have hle : (i + 1) * n ≤ i' * n := Nat.mul_le_mul_right n (by omega)
    rw [Nat.succ_mul] at hle
    omega
  · subst heq
    exact ⟨rfl, by omega⟩
  · have hle : (i' + 1) * n ≤ i * n := Nat.mul_le_mul_right n (by omega)
    rw [Nat.succ_mul] at hle
    omega

theorem homomorphic_main_eq (t N : Nat) (database : Nat → Nat → Nat) (m n client_id record_idx : Nat)
    (hslots : m * n ≤ N) (hc : client_id < m) (hr : record_idx < n)
    (hval : database client_id record_idx < t) (ht : t ≤ 2 ^ 64) :
    main t N database m n client_id record_idx
      = some (database client_id record_idx, database client_id record_idx) := by
  have hp : client_id * n + record_idx < N := by
    have := index_lt m n client_id record_idx hc hr
    omega
  have hread : Vec.readCell database m n client_id record_idx
      = some (database client_id record_idx) := by
    unfold Vec.readCell
    rw [if_pos ⟨hc, hr⟩]
  have hsel : Vec.setAt (List.replicate N 0) (client_id * n + record_idx) 1
      = some ((List.replicate N 0).set (client_id * n + record_idx) 1) := by
    unfold Vec.setAt
    rw [if_pos (by simpa using hp)]
  obtain ⟨flat, hflat, -, hget⟩ :=
    flatten_rows database m n m (Nat.le_refl m) (List.replicate N 0) (by simpa using hslots)
  have hflat' : flattenDatabase database m n (List.replicate N 0) = some flat := hflat
  have hsum := Vec.foldl_one_hot
    (fun i => (multiplyPlain t ((List.replicate N 0).set (client_id * n + record_idx) 1)
      flat).getD i 0) (2 ^ 64) (client_id * n + record_idx) (database client_id record_idx)
    (by
      intro j hj
      simp only []
      rw [multiplyPlain_getD, Vec.one_hot_getD N _ j hp, if_neg hj, Nat.zero_mul, Nat.zero_mod])
    (by
      simp only []
      rw [multiplyPlain_getD, Vec.one_hot_getD N _ _ hp, if_pos rfl, Nat.one_mul,
        hget client_id hc record_idx hr, Nat.mod_eq_of_lt hval])
    (by omega) N
  rw [if_pos hp] at hsum
  simp only [main, hread, hsel, hflat', Option.bind_eq_bind, Option.some_bind,
    Option.pure_def, hsum]

end HomomorphicPIR

namespace MatrixElementExtraction

theorem row_sum (t : Nat) (plain_matrix : Nat → Nat → Nat) (n col_idx i : Nat)
    (hc : col_idx < n) (hv : plain_matrix i col_idx < t) :
    (List.range n).foldl
      (fun acc j =>
        (acc + (plain_matrix i j * ((List.replicate n 0).set col_idx 1).getD j 0) % t) % t) 0
      = plain_matrix i col_idx := by
  have hsum := Vec.foldl_one_hot
    (fun j => (plain_matrix i j * ((List.replicate n 0).set col_idx 1).getD j 0) % t)
    t col_idx (plain_matrix i col_idx)
    (by
      intro j hj
      simp only []
      rw [Vec.one_hot_getD n col_idx j hc, if_neg hj, Nat.mul_zero, Nat.zero_mod])
    (by
      simp only []
      rw [Vec.one_hot_getD n col_idx col_idx hc, if_pos rfl, Nat.mul_one,
        Nat.mod_eq_of_lt hv])
    hv n
  rw [if_pos hc] at hsum
  exact hsum

/-- C18. For every `m` x `n` matrix of byte values, every `row_idx < m` and
`col_idx < n` and every plain modulus above 255: the value the program computes, the
sum over `i` of `row[i]` times the sum over `j` of `M[i][j] * col[j]` with one-hot
vectors `row` and `col`, taken modulo the plain modulus and cast to 8 bits, equals
`M[row_idx][col_idx]`, so the check of the program succeeds ("Test passed!"). -/
theorem matrix_element_extracted (t : Nat) (plain_matrix : Nat → Nat → Nat)
    (m n col_idx row_idx : Nat)
    (ht : 255 < t) (hr : row_idx < m) (hc : col_idx < n)
    (hbytes : ∀ i, i < m → ∀ j, j < n → plain_matrix i j < 256) :
    main t plain_matrix m n col_idx row_idx
      = some (plain_matrix row_idx col_idx, plain_matrix row_idx col_idx, true) := by
  have hcol : Vec.setAt (List.replicate n 0) col_idx 1
      = some ((List.replicate n 0).set col_idx 1) := by
    unfold Vec.setAt
    rw [if_pos (by simpa using hc)]
  have hrow : Vec.setAt (List.replicate m 0) row_idx 1
      = some ((List.replicate m 0).set row_idx 1) := by
    unfold Vec.setAt
    rw [if_pos (by simpa using hr)]
  have hread : Vec.readCell plain_matrix m n row_idx col_idx
      = some (plain_matrix row_idx col_idx) := by
    unfold Vec.readCell
    rw [if_pos ⟨hr, hc⟩]
  have hcell : plain_matrix row_idx col_idx < 256 := hbytes row_idx hr col_idx hc
  have hsums : ((List.range m).map fun i =>
      (List.range n).foldl
        (fun acc j =>
          (acc + (plain_matrix i j * ((List.replicate n 0).set col_idx 1).getD j 0) % t) % t)
        0).getD row_idx 0 = plain_matrix row_idx col_idx := by
    rw [List.getD_eq_getElem?_getD, List.getElem?_map, List.getElem?_range hr]
    exact row_sum t plain_matrix n col_idx row_idx hc (by omega)
  have hsum := Vec.foldl_one_hot
    (fun i => (((List.replicate m 0).set row_idx 1).getD i 0 *
      ((List.range m).map fun i =>
        (List.range n).foldl
          (fun acc j =>
            (acc + (plain_matrix i j * ((List.replicate n 0).set col_idx 1).getD j 0) % t) % t)
          0).getD i 0) % t)
    t row_idx (plain_matrix row_idx col_idx)
    (by
      intro j hj
      simp only []
      rw [Vec.one_hot_getD m row_idx j hr, if_neg hj, Nat.zero_mul, Nat.zero_mod])
    (by
      simp only []
      rw [Vec.one_hot_getD m row_idx row_idx hr, if_pos rfl, Nat.one_mul, hsums,
        Nat.mod_eq_of_lt (by omega)])
    (by omega) m
  rw [if_pos hr] at hsum
  simp only [main, hcol, hrow, hread, Option.bind_eq_bind, Option.some_bind,
    Option.pure_def, hsum, Nat.mod_eq_of_lt hcell, beq_self_eq_true]

end MatrixElementExtraction

namespace MatrixElementExtraction

/-- Witness of C18: the 50 x 350 matrix with `M[i][j] = (7 i + 3 j) mod 256`, column 17
and row 33, plain modulus 1032193; the extracted byte is 26. -/
theorem matrix_element_extracted_witness :
    main 1032193 (fun i j => (i * 7 + j * 3) % 256) 50 350 17 33 = some (26, 26, true) :=
  matrix_element_extracted 1032193 (fun i j => (i * 7 + j * 3) % 256) 50 350 17 33
    (by decide) (by decide) (by decide)
    (fun i _ j _ => Nat.mod_lt _ (by decide))

end MatrixElementExtraction

namespace HomomorphicPIR

/-- C17. For every `m`, `n` with `m * n` not above the number of slots, every database
of values below the plain modulus (itself a 64-bit value), and every `client_id < m`,
`record_idx < n`: `main` of `homomorphic_pir.cpp` runs to its end and the sum over all
slots of `selection[k] * flat_database[k]`, the selection being one-hot at
`client_id * n + record_idx`, equals `database[client_id][record_idx]`. The map
`(i, j) -> i * n + j` lands below `m * n` and is injective on the domain. -/
theorem one_hot_selection_retrieves (t N : Nat) (database : Nat → Nat → Nat)
    (m n client_id record_idx : Nat) (hslots : m * n ≤ N) (hc : client_id < m)
    (hr : record_idx < n) (hval : ∀ i, i < m → ∀ j, j < n → database i j < t)
    (ht : t ≤ 2 ^ 64) :
    main t N database m n client_id record_idx
      = some (database client_id record_idx, database client_id record_idx) ∧
    (∀ i j, i < m → j < n → i * n + j < m * n) ∧
    (∀ i j i' j', j < n → j' < n → i * n + j = i' * n + j' → i = i' ∧ j = j') := by
  refine ⟨?_, ?_, ?_⟩
  · exact homomorphic_main_eq t N database m n client_id record_idx hslots hc hr
      (hval client_id hc record_idx hr) ht
  · intro i j hi hj
    exact index_lt m n i j hi hj
  · intro i j i' j' hj hj' h
    exact index_injective n i j i' j' hj hj' h

/-- Witness of C17: the 10 x 5 database with `database[i][j] = (7 i + 3 j) mod 16`, 4096
slots, plain modulus 1032193, the query (3, 2) whose cell holds 11. -/
theorem one_hot_selection_retrieves_witness :
    main 1032193 4096 (fun i j => (i * 7 + j * 3) % 16) 10 5 3 2 = some (11, 11) :=
  (one_hot_selection_retrieves 1032193 4096 (fun i j => (i * 7 + j * 3) % 16) 10 5 3 2
    (by decide) (by decide) (by decide)
    (fun i _ j _ => Nat.lt_trans (Nat.mod_lt _ (by decide)) (by decide))
    (by decide)).1

end HomomorphicPIR

namespace GarbledPIR

/-! ## Evaluation reads one row (C21) -/

/-- C21. For every cipher, unset local and pair of held labels, the result of
`evaluateGarbledANDGate` depends only on the held labels and on the 16 bytes of the
table at row index `2 * input0.permute_bit + input1.permute_bit`: two tables that
agree on these 16 bytes give the same result, whatever their other bytes are. -/
theorem evaluate_reads_one_row (c : Evp) (plaintext0 : WireLabel) (gate gate' : GarbledGate)
    (input0 input1 : WireLabel)
    (hrow : ∀ i, i < 16 →
      gate.table.getD (rowIndex input0.permute_bit input1.permute_bit * 16 + i) 0 =
        gate'.table.getD (rowIndex input0.permute_bit input1.permute_bit * 16 + i) 0) :
    rowIndex input0.permute_bit input1.permute_bit
      = 2 * (if input0.permute_bit then 1 else 0) + (if input1.permute_bit then 1 else 0) ∧
    evaluateGarbledANDGate c plaintext0 gate input0 input1
      = evaluateGarbledANDGate c plaintext0 gate' input0 input1 := by
  constructor
  · cases input0.permute_bit <;> cases input1.permute_bit <;> rfl
  · rw [evaluate_eq_decrypt_row, evaluate_eq_decrypt_row]
    have hrows : rowOf gate.table (rowIndex input0.permute_bit input1.permute_bit)
        = rowOf gate'.table (rowIndex input0.permute_bit input1.permute_bit) := by
      unfold rowOf
      apply List.map_congr_left
      intro i hi
      exact hrow i (List.mem_range.mp hi)
    rw [hrows]

/-- Witness of C21: held labels selecting row 3, a garbled table and the table that
keeps its row 3 and has the byte 9 everywhere else. -/
theorem evaluate_reads_one_row_witness :
    rowIndex (constLabel 2 true).permute_bit (constLabel 4 true).permute_bit
      = 2 * (if (constLabel 2 true).permute_bit then 1 else 0)
        + (if (constLabel 4 true).permute_bit then 1 else 0) ∧
    evaluateGarbledANDGate xorEvp (constLabel 0 false)
        (createGarbledANDGate xorEvp (constLabel 1 false) (constLabel 2 true)
          (constLabel 3 false) (constLabel 4 true) (constLabel 5 false) (constLabel 6 true))
        (constLabel 2 true) (constLabel 4 true)
      = evaluateGarbledANDGate xorEvp (constLabel 0 false)
        { table := List.replicate 48 9 ++ List.replicate 16 2 }
        (constLabel 2 true) (constLabel 4 true) :=
  evaluate_reads_one_row xorEvp (constLabel 0 false) _ _ (constLabel 2 true)
    (constLabel 4 true) (by decide)

/-! ## Table bounds (C22) -/

theorem encrypt_length (c : Evp) (hc : c.WritesOneBlock) (key plaintext : WireLabel) :
    (encrypt c key plaintext).length = 16 := by
  unfold encrypt
  split
  · simp
  · split
    · simp
    · split
      · simp
      · next written hw =>
        split
        · simp
        · next tail ht =>
          rw [List.length_append]
          exact hc key.data plaintext.data written tail hw ht

theorem xorEvp_writesOneBlock : xorEvp.WritesOneBlock := by
  intro k x written tail hw ht
  simp only [xorEvp, Option.some.injEq] at hw ht
  subst hw
  subst ht
  simp

/-- C22. The table returned by `createGarbledANDGate` has exactly `4 * 16 = 64` bytes,
for every cipher. The vector returned by `encrypt` has exactly 16 bytes: on every
failure branch for every cipher, and on success for a cipher that writes one block
for one block. Every row index computed by the garbler and by
`evaluateGarbledANDGate` lies in `0..3`, so each 16-byte row write and the row read
end at or before byte 64. -/
theorem table_bounds (c : Evp) (hc : c.WritesOneBlock)
    (in0f in0t in1f in1t outF outT key plaintext : WireLabel) (p q : Bool) :
    (createGarbledANDGate c in0f in0t in1f in1t outF outT).table.length = 4 * 16 ∧
    (encrypt c key plaintext).length = 16 ∧
    (∀ c' : Evp, encryptFails c' key plaintext = true →
      (encrypt c' key plaintext).length = 16) ∧
    (∀ c' : Evp, (createGarbledANDGate c' in0f in0t in1f in1t outF outT).table.length = 64) ∧
    (∀ k ∈ rowIndices in0f in0t in1f in1t, k < 4 ∧ k * LABEL_SIZE + LABEL_SIZE ≤ 64) ∧
    rowIndex p q < 4 ∧ rowIndex p q * LABEL_SIZE + LABEL_SIZE ≤ 64 := by
  have hidx : ∀ a b : Bool, rowIndex a b < 4 ∧ rowIndex a b * LABEL_SIZE + LABEL_SIZE ≤ 64 := by
    intro a b
    cases a <;> cases b <;> decide
  refine ⟨createGarbledANDGate_length c in0f in0t in1f in1t outF outT,
    encrypt_length c hc key plaintext, ?_, ?_, ?_, hidx p q⟩
  · intro c' hfail
    rw [encrypt_of_fails c' key plaintext hfail]
    exact List.length_replicate _ _
  · intro c'
    exact createGarbledANDGate_length c' in0f in0t in1f in1t outF outT
  · intro k hk
    simp only [rowIndices, List.mem_cons, List.mem_singleton, List.not_mem_nil, or_false] at hk
    rcases hk with rfl | rfl | rfl | rfl <;> exact hidx _ _

/-- Witness of C22: the toy cipher, which writes 16 bytes for a 16-byte block. -/
theorem table_bounds_witness :
    (createGarbledANDGate xorEvp (constLabel 1 false) (constLabel 2 true)
      (constLabel 3 false) (constLabel 4 true) (constLabel 5 false)
      (constLabel 6 true)).table.length = 4 * 16 ∧
    (encrypt xorEvp (constLabel 1 false) (constLabel 5 false)).length = 16 ∧
    rowIndex true true < 4 ∧ rowIndex true true * LABEL_SIZE + LABEL_SIZE ≤ 64 :=
  ⟨(table_bounds xorEvp xorEvp_writesOneBlock (constLabel 1 false) (constLabel 2 true)
      (constLabel 3 false) (constLabel 4 true) (constLabel 5 false) (constLabel 6 true)
      (constLabel 1 false) (constLabel 5 false) true true).1,
    (table_bounds xorEvp xorEvp_writesOneBlock (constLabel 1 false) (constLabel 2 true)
      (constLabel 3 false) (constLabel 4 true) (constLabel 5 false) (constLabel 6 true)
      (constLabel 1 false) (constLabel 5 false) true true).2.1,
    (table_bounds xorEvp xorEvp_writesOneBlock (constLabel 1 false) (constLabel 2 true)
      (constLabel 3 false) (constLabel 4 true) (constLabel 5 false) (constLabel 6 true)
      (constLabel 1 false) (constLabel 5 false) true true).2.2.2.2.2⟩

/-! ## The delta is written by `initializeFreeXOR` only (C23) -/

theorem exec_keeps_globals (g : Globals) (call : Call) (h : call.isInit = false) :
    (call.exec g).2 = g := by
  cases call with
  | init bytes => simp [Call.isInit] at h
  | genPair bytes r => rfl
  | garble c in0f in0t in1f in1t outF outT => rfl
  | evaluate c plaintext0 gate input0 input1 => rfl
  | transfer label0 label1 choice => rfl
  | clientLabels wire_labels input_bits => rfl

theorem exec_pair_invariant (g : Globals) (call : Call) (p : WireLabel × WireLabel)
    (h : (call.exec g).1 = Returned.pair p) : WirePairInvariant g.global_delta p := by
  cases call with
  | genPair bytes r =>
    have hp : p = generateLabelPair g.global_delta bytes r := by
      have h2 : Returned.pair (generateLabelPair g.global_delta bytes r) = Returned.pair p := h
      injection h2 with h3
      exact h3.symm
    subst hp
    exact ⟨fun _ => rfl, rfl⟩
  | init bytes => exact absurd h (by simp [Call.exec])
  | garble c in0f in0t in1f in1t outF outT => exact absurd h (by simp [Call.exec])
  | evaluate c plaintext0 gate input0 input1 => exact absurd h (by simp [Call.exec])
  | transfer label0 label1 choice => exact absurd h (by simp [Call.exec])
  | clientLabels wire_labels input_bits => exact absurd h (by simp [Call.exec])

/-- C23. The delta is written only by `initializeFreeXOR`: a call of
`generateLabelPair`, `createGarbledANDGate`, `evaluateGarbledANDGate`,
`obliviousTransfer` or `getClientInputLabels` leaves `global_delta` (data and permute
bit) as it was, while `initializeFreeXOR` replaces it; so after any sequence of calls
without `initializeFreeXOR` the delta is the one before the sequence, and every pair
generated in the sequence differs by this one delta. -/
theorem delta_written_by_init_only (g : Globals) (calls : List Call)
    (hno : ∀ call ∈ calls, call.isInit = false) :
    (∀ call : Call, call.isInit = false → (call.exec g).2.global_delta = g.global_delta) ∧
    (∀ bytes, ((Call.init bytes).exec g).2.global_delta = initializeFreeXOR bytes) ∧
    (runCalls g calls).2 = g ∧
    ∀ p, Returned.pair p ∈ (runCalls g calls).1 → WirePairInvariant g.global_delta p := by
  refine ⟨?_, fun _ => rfl, ?_, ?_⟩
  · intro call h
    rw [exec_keeps_globals g call h]
  · induction calls with
    | nil => rfl
    | cons call rest ih =>
      have hc := hno call (List.mem_cons_self _ _)
      have hrest : ∀ x ∈ rest, x.isInit = false :=
        fun x hx => hno x (List.mem_cons_of_mem _ hx)
      show (runCalls (call.exec g).2 rest).2 = g
      rw [exec_keeps_globals g call hc]
      exact ih hrest
  · induction calls with
    | nil =>
      intro p hp
      exact absurd hp (List.not_mem_nil _)
    | cons call rest ih =>
      intro p hp
      have hc := hno call (List.mem_cons_self _ _)
      have hrest : ∀ x ∈ rest, x.isInit = false :=
        fun x hx => hno x (List.mem_cons_of_mem _ hx)
      have hp2 : Returned.pair p ∈ (call.exec g).1 :: (runCalls (call.exec g).2 rest).1 := hp
      rw [exec_keeps_globals g call hc] at hp2
      rcases List.mem_cons.mp hp2 with h | h
      · exact exec_pair_invariant g call p h.symm
      · exact ih hrest p h

/-- Witness of C23: from the delta with bytes 7, a pair is generated, a gate is garbled
and evaluated, a label is transferred and a second pair is generated. -/
theorem delta_written_by_init_only_witness :
    (runCalls { global_delta := constLabel 7 true }
      [Call.genPair (fun _ => 1) 0,
        Call.garble xorEvp (constLabel 1 false) (constLabel 2 true) (constLabel 3 false)
          (constLabel 4 true) (constLabel 5 false) (constLabel 6 true),
        Call.evaluate xorEvp (constLabel 0 false) { table := List.replicate 64 0 }
          (constLabel 2 true) (constLabel 4 true),
        Call.transfer (constLabel 1 false) (constLabel 2 true) true,
        Call.clientLabels [] [],
        Call.genPair (fun _ => 9) 1]).2.global_delta = constLabel 7 true :=
  congrArg Globals.global_delta
    (delta_written_by_init_only { global_delta := constLabel 7 true } _
      (by
        intro call hcall
        simp only [List.mem_cons, List.mem_singleton, List.not_mem_nil, or_false] at hcall
        rcases hcall with rfl | rfl | rfl | rfl | rfl | rfl <;> rfl)).2.2.1

/-! ## Key agreement between garbler and evaluator (C24) -/

theorem evaluatorKey_eq (input0 input1 : WireLabel) :
    evaluatorKey input0 input1 = if input1.permute_bit then input1 else input0 := by
  unfold evaluatorKey
  cases input0.permute_bit <;> cases input1.permute_bit <;> rfl

/-- C24. The key `evaluateGarbledANDGate` decrypts under is `evaluatorKey`. For input
pairs with complementary permute bits and four input labels with pairwise distinct
data: when `input1_false.permute_bit` is false, the evaluator's key for the held
labels `(in0[a], in1[b])` is the garbler's key for combination `(a, b)` in all four
combinations; when `input1_false.permute_bit` is true, the two keys have different
data in all four combinations. -/
theorem key_agreement (in0f in0t in1f in1t : WireLabel)
    (h1 : in1t.permute_bit = !in1f.permute_bit)
    (d01 : in0f.data ≠ in1f.data) (d02 : in0f.data ≠ in1t.data)
    (d11 : in0t.data ≠ in1f.data) (d12 : in0t.data ≠ in1t.data) :
    (∀ (c : Evp) (plaintext0 : WireLabel) (gate : GarbledGate) (input0 input1 : WireLabel),
      evaluateGarbledANDGate c plaintext0 gate input0 input1
        = decrypt c plaintext0 (evaluatorKey input0 input1)
            (rowOf gate.table (rowIndex input0.permute_bit input1.permute_bit))) ∧
    (in1f.permute_bit = false → ∀ a b,
      evaluatorKey (heldLabel (in0f, in0t) a) (heldLabel (in1f, in1t) b)
        = garblerKey in0f in0t in1f in1t a b) ∧
    (in1f.permute_bit = true → ∀ a b,
      (evaluatorKey (heldLabel (in0f, in0t) a) (heldLabel (in1f, in1t) b)).data
        ≠ (garblerKey in0f in0t in1f in1t a b).data) := by
  refine ⟨?_, ?_, ?_⟩
  · intro c plaintext0 gate input0 input1
    rw [evaluate_eq_decrypt_row, evaluatorKey_eq]
  · intro hf a b
    have ht : in1t.permute_bit = true := by rw [h1, hf]; rfl
    rw [evaluatorKey_eq]
    cases a <;> cases b <;> simp [heldLabel, garblerKey, hf, ht]
  · intro hf a b
    have ht : in1t.permute_bit = false := by rw [h1, hf]; rfl
    rw [evaluatorKey_eq]
    cases a <;> cases b
    · simp only [heldLabel, garblerKey, hf, Bool.false_eq_true, if_false, if_true]
      exact fun h => d01 h.symm
    · simp only [heldLabel, garblerKey, ht, Bool.false_eq_true, if_false, if_true]
      exact d02
    · simp only [heldLabel, garblerKey, hf, Bool.false_eq_true, if_false, if_true]
      exact fun h => d11 h.symm
    · simp only [heldLabel, garblerKey, ht, Bool.false_eq_true, if_false, if_true]
      exact d12

/-- Witness of C24: labels with the distinct data bytes 1, 2, 3, 4; with
`input1_false.permute_bit` false the keys agree for combination (1,0), with it true
they differ. -/
theorem key_agreement_witness :
    evaluatorKey (heldLabel (constLabel 1 false, constLabel 2 true) true)
        (heldLabel (constLabel 3 false, constLabel 4 true) false)
      = garblerKey (constLabel 1 false) (constLabel 2 true) (constLabel 3 false)
        (constLabel 4 true) true false ∧
    (evaluatorKey (heldLabel (constLabel 1 false, constLabel 2 true) true)
        (heldLabel (constLabel 3 true, constLabel 4 false) false)).data
      ≠ (garblerKey (constLabel 1 false) (constLabel 2 true) (constLabel 3 true)
        (constLabel 4 false) true false).data :=
  have hne : ∀ a b p q, a ≠ b → (constLabel a p).data ≠ (constLabel b q).data :=
    fun a b p q hab h => hab (congrFun h 0)
  ⟨(key_agreement (constLabel 1 false) (constLabel 2 true) (constLabel 3 false)
      (constLabel 4 true) rfl (hne 1 3 _ _ (by decide)) (hne 1 4 _ _ (by decide))
      (hne 2 3 _ _ (by decide)) (hne 2 4 _ _ (by decide))).2.1 rfl true false,
    (key_agreement (constLabel 1 false) (constLabel 2 true) (constLabel 3 true)
      (constLabel 4 false) rfl (hne 1 3 _ _ (by decide)) (hne 1 4 _ _ (by decide))
      (hne 2 3 _ _ (by decide)) (hne 2 4 _ _ (by decide))).2.2 rfl true false⟩

/-! ## Labels of a pair differ after `initializeFreeXOR` (C25) -/

/-- C25. For every delta produced by `initializeFreeXOR` and every random draw, the
pair returned by `generateLabelPair` has labels whose bytes 0 have complementary
lowest bits, hence different data. With the zero-initialised `global_delta`
(`initializeFreeXOR` never called) the two labels have identical data and differ
only in the permute bit. -/
theorem pair_labels_differ (deltaBytes bytes : Block) (r : Nat) :
    (generateLabelPair (initializeFreeXOR deltaBytes) bytes r).2.data 0 % 2
      = 1 - (generateLabelPair (initializeFreeXOR deltaBytes) bytes r).1.data 0 % 2 ∧
    (generateLabelPair (initializeFreeXOR deltaBytes) bytes r).1.data
      ≠ (generateLabelPair (initializeFreeXOR deltaBytes) bytes r).2.data ∧
    (generateLabelPair global_delta_initial bytes r).2.data
      = (generateLabelPair global_delta_initial bytes r).1.data ∧
    (generateLabelPair global_delta_initial bytes r).2.permute_bit
      = !(generateLabelPair global_delta_initial bytes r).1.permute_bit := by
  have hlow : (bytes 0 ^^^ (deltaBytes 0 ||| 1)) % 2 = 1 - bytes 0 % 2 := by
    have hd : (deltaBytes 0 ||| 1) % 2 = 1 := Nat.or_mod_two_eq_one.mpr (Or.inr rfl)
    rw [Nat.xor_mod_two_eq]
    omega
  refine ⟨hlow, ?_, ?_, rfl⟩
  · intro h
    have h0 : bytes 0 = bytes 0 ^^^ (deltaBytes 0 ||| 1) := congrFun h 0
    rw [← h0] at hlow
    omega
  · funext i
    show bytes i ^^^ 0 = bytes i
    exact Nat.xor_zero _

/-! ## The cipher wrappers ignore permute bits (C26) -/

theorem encrypt_congr (c : Evp) (k k' p p' : WireLabel) (hk : k.data = k'.data)
    (hp : p.data = p'.data) : encrypt c k p = encrypt c k' p' := by
  unfold encrypt
  rw [hk, hp]

/-- C26. The cipher wrappers use the data bytes only: for all keys with equal data
and all plaintext labels with equal data, `encrypt` returns the same ciphertext
whatever the four permute bits are, and `decrypt` returns the same label under both
keys; so the table built by `createGarbledANDGate` is the same for output labels that
differ only in their permute bits. -/
theorem encrypt_ignores_permute_bits (c : Evp) (k k' p p' : WireLabel)
    (hk : k.data = k'.data) (hp : p.data = p'.data) :
    encrypt c k p = encrypt c k' p' ∧
    (∀ plaintext0 ciphertext, decrypt c plaintext0 k ciphertext
      = decrypt c plaintext0 k' ciphertext) ∧
    (∀ in0f in0t in1f in1t out,
      createGarbledANDGate c in0f in0t in1f in1t p out
        = createGarbledANDGate c in0f in0t in1f in1t p' out ∧
      createGarbledANDGate c in0f in0t in1f in1t out p
        = createGarbledANDGate c in0f in0t in1f in1t out p') := by
  refine ⟨encrypt_congr c k k' p p' hk hp, ?_, ?_⟩
  · intro plaintext0 ciphertext
    unfold decrypt
    rw [hk]
  · intro in0f in0t in1f in1t out
    constructor
    · simp only [createGarbledANDGate, encrypt_congr c _ _ p p' rfl hp]
    · simp only [createGarbledANDGate, encrypt_congr c _ _ p p' rfl hp]

/-- Witness of C26: keys with data bytes 1 and plaintexts with data bytes 5, all four
permute bits different between the two calls. -/
theorem encrypt_ignores_permute_bits_witness :
    encrypt xorEvp (constLabel 1 false) (constLabel 5 true)
      = encrypt xorEvp (constLabel 1 true) (constLabel 5 false) :=
  (encrypt_ignores_permute_bits xorEvp (constLabel 1 false) (constLabel 1 true)
    (constLabel 5 true) (constLabel 5 false) rfl rfl).1

/-! ## Index bit-width in `main` (C27) -/

theorem bitAt_eq_testBit (x i : Nat) : bitAt x i = x.testBit i := by
  unfold bitAt Nat.testBit
  rw [Nat.and_comm]

theorem eq_of_bitAt_eq (k x y : Nat) (hx : x < 2 ^ k) (hy : y < 2 ^ k)
    (h : ∀ i, i < k → bitAt x i = bitAt y i) : x = y := by
  apply Nat.eq_of_testBit_eq
  intro i
  by_cases hi : i < k
  · rw [← bitAt_eq_testBit, ← bitAt_eq_testBit]
    exact h i hi
  · have hpow : 2 ^ k ≤ 2 ^ i := Nat.pow_le_pow_right (by decide) (by omega)
    rw [Nat.testBit_lt_two_pow (by omega), Nat.testBit_lt_two_pow (by omega)]

theorem mapM_option_length {α β : Type} (f : α → Option β) (l : List α) (out : List β)
    (h : l.mapM f = some out) : out.length = l.length := by
  induction l generalizing out with
  | nil =>
    simp only [List.mapM_nil, Option.pure_def, Option.some.injEq] at h
    subst h
    rfl
  | cons x xs ih =>
    simp only [List.mapM_cons, Option.bind_eq_bind, Option.bind_eq_some, Option.pure_def,
      Option.some.injEq] at h
    obtain ⟨y, -, ys, hys, rfl⟩ := h
    rw [List.length_cons, List.length_cons, ih ys hys]

theorem pirMain_lengths (c : Evp) (rnd : Nat → Block × Nat) (junk : Nat → WireLabel)
    (database : List (List Nat)) (m n value_range client_id record_idx : Nat)
    (r : MainResult)
    (h : pirMain c rnd junk database m n value_range client_id record_idx = some r) :
    r.client_id_labels.length = Nat.log2 m + 1 ∧
    r.record_idx_labels.length = Nat.log2 n + 1 ∧
    r.output_labels.length = Nat.log2 value_range + 1 ∧
    r.client_input_labels.length = Nat.log2 m + 1 ∧
    r.record_input_labels.length = Nat.log2 n + 1 ∧
    r.result_labels.length = Nat.log2 value_range + 1 := by
  simp only [pirMain, Option.bind_eq_bind, Option.bind_eq_some, Option.pure_def,
    Option.some.injEq] at h
  obtain ⟨c0, -, r0, -, o0, -, row, -, expected, -, labels, hlabels, rfl⟩ := h
  have hl := mapM_option_length _ _ _ hlabels
  simp only [List.length_map, List.length_range, List.enum_length] at hl ⊢
  exact ⟨trivial, trivial, trivial, trivial, trivial, hl⟩

/-- C27. With `k = floor(log2(m)) + 1` input wires for a domain of size `m`, every index
`x < m` is below `2 ^ k`, so two indices below `m` with the same `k` bits
`(x >> i) & 1` are equal; `main` has 4 client-id wires for `m = 10`, 3 record wires
for `n = 5` and `floor(log2(16)) + 1 = 5` output wires, which cover every database
value below 16. -/
theorem index_width_sufficient (m x y : Nat) (hx : x < m) (hy : y < m) :
    x < 2 ^ (Nat.log2 m + 1) ∧
    ((∀ i, i < Nat.log2 m + 1 → bitAt x i = bitAt y i) → x = y) ∧
    Nat.log2 10 + 1 = 4 ∧ Nat.log2 5 + 1 = 3 ∧ Nat.log2 16 + 1 = 5 ∧
    (∀ v, v < 16 → v < 2 ^ (Nat.log2 16 + 1)) ∧
    (∀ v w, v < 16 → w < 16 →
      (∀ i, i < Nat.log2 16 + 1 → bitAt v i = bitAt w i) → v = w) ∧
    (∀ (c : Evp) (rnd : Nat → Block × Nat) (junk : Nat → WireLabel)
      (database : List (List Nat)) (n value_range client_id record_idx : Nat)
      (r : MainResult),
      pirMain c rnd junk database m n value_range client_id record_idx = some r →
      r.client_id_labels.length = Nat.log2 m + 1 ∧
      r.record_idx_labels.length = Nat.log2 n + 1 ∧
      r.output_labels.length = Nat.log2 value_range + 1 ∧
      r.client_input_labels.length = Nat.log2 m + 1 ∧
      r.record_input_labels.length = Nat.log2 n + 1 ∧
      r.result_labels.length = Nat.log2 value_range + 1) ∧
    (∀ (c : Evp) (rnd : Nat → Block × Nat) (junk : Nat → WireLabel)
      (database : List (List Nat)), IsDatabase 10 5 16 database →
      ∃ r, main c rnd junk database = some r ∧ r.client_id_labels.length = 4 ∧
        r.record_idx_labels.length = 3 ∧ r.output_labels.length = 5) := by
  have hm : m < 2 ^ (Nat.log2 m + 1) := Nat.lt_log2_self
  have h16 : (16 : Nat) < 2 ^ (Nat.log2 16 + 1) := Nat.lt_log2_self
  refine ⟨by omega, ?_, by rw [log2_10], by rw [log2_5], by rw [log2_16], ?_, ?_, ?_, ?_⟩
  · intro h
    exact eq_of_bitAt_eq (Nat.log2 m + 1) x y (by omega) (by omega) h
  · intro v hv
    omega
  · intro v w hv hw h
    exact eq_of_bitAt_eq (Nat.log2 16 + 1) v w (by omega) (by omega) h
  · intro c rnd junk database n value_range client_id record_idx r h
    exact pirMain_lengths c rnd junk database m n value_range client_id record_idx r h
  · intro c rnd junk database hdb
    obtain ⟨row, hrow, hv, -⟩ := isDatabase_cell database hdb
    obtain ⟨r, hr, hcl, hrl, hol⟩ := main_pairs c rnd junk database row _ hrow hv
    refine ⟨r, hr, ?_, ?_, ?_⟩
    · rw [hcl, List.length_map, List.length_range]
    · rw [hrl, List.length_map, List.length_range]
    · rw [hol, List.length_map, List.length_range]

/-- Witness of C27: the domain size 10 of `main` and the indices 3 and 9; and the run
of `main` on the database whose cells all hold 9. -/
theorem index_width_sufficient_witness :
    (3 : Nat) < 2 ^ (Nat.log2 10 + 1) ∧
    ((∀ i, i < Nat.log2 10 + 1 → bitAt 3 i = bitAt 9 i) → (3 : Nat) = 9) ∧
    ∃ r, main xorEvp rnd0 junk0 (constDb 9) = some r ∧ r.client_id_labels.length = 4 ∧
      r.record_idx_labels.length = 3 ∧ r.output_labels.length = 5 :=
  ⟨(index_width_sufficient 10 3 9 (by decide) (by decide)).1,
    (index_width_sufficient 10 3 9 (by decide) (by decide)).2.1,
    (index_width_sufficient 10 3 9 (by decide) (by decide)).2.2.2.2.2.2.2.2
      xorEvp rnd0 junk0 (constDb 9) (isDatabase_constDb 9 (by decide))⟩

end GarbledPIR
